import Mathlib

/-!
Verification of the tablib-go tabular-data engine against its design
specification.  The Go sources are shallowly embedded: Go strings are lists of
bytes, Go `any` cell values are a closed inductive type covering the concrete
types the library distinguishes, and every mutating method of `*Dataset`
becomes a pure function returning the updated dataset together with the
optional error (a method that returns an error before mutating returns the
dataset unchanged).  Byte-producing codecs (`dbf.go`) are embedded down to the
byte stream.
-/

namespace Tablib

/-- Error values of errors.go, one constructor per exported `Err*` variable. -/
inductive Err where
  | invalidDimensions
  | headersRequired
  | invalidRowIndex
  | invalidColumnIndex
  | columnNotFound
  | unsupportedFormat
  | emptyDataset
  | invalidData
  deriving DecidableEq, Repr

/-- Go strings are modelled as lists of bytes. -/
abbrev GoStr := List Nat

/-- Byte string from an ASCII Lean string literal (each char is one byte). -/
def str (s : String) : GoStr := s.data.map Char.toNat

/-- Heterogeneous cell values (Go `any`), with one constructor per concrete Go
type the source code distinguishes: `compareAny` (dataset.go) has native arms
for `int`, `int64`, `float64` and `string`; everything else is rendered through
`fmt.Sprintf("%v")`.  `float64` cells (floating point) are outside this
embedding; `vNil` is Go `nil`. -/
inductive Value where
  | vInt (n : Int)
  | vInt64 (n : Int)
  | vStr (s : GoStr)
  | vBool (b : Bool)
  | vNil
  deriving DecidableEq, Repr

/-- Canonical text rendering `fmt.Sprintf("%v", v)` of a cell value, as bytes. -/
def render : Value → GoStr
  | .vInt n => str (toString n)
  | .vInt64 n => str (toString n)
  | .vStr s => s
  | .vBool true => str "true"
  | .vBool false => str "false"
  | .vNil => str "<nil>"

/-- Three-way integer comparison, Go `cmp.Compare`. -/
def cmp3 (a b : Int) : Int := if a < b then -1 else if a = b then 0 else 1

/-- Lexicographic byte comparison of Go strings (`cmp.Compare` on `string`). -/
def cmpStr : GoStr → GoStr → Int
  | [], [] => 0
  | [], _ :: _ => -1
  | _ :: _, [] => 1
  | a :: as, b :: bs => if a < b then -1 else if b < a then 1 else cmpStr as bs

/-- Translation of `compareAny` (dataset.go): native comparison when both
operands have the same concrete Go type among int/int64/string (the omitted
float64 arm aside), otherwise comparison of the `%v` renderings. -/
def compareAny (a b : Value) : Int :=
  match a, b with
  | .vInt x, .vInt y => cmp3 x y
  | .vInt64 x, .vInt64 y => cmp3 x y
  | .vStr x, .vStr y => cmpStr x y
  | _, _ => cmpStr (render a) (render b)

/-- The Dataset record (dataset.go).  Dynamic columns and formatters store Go
functions; the `map[string]DynamicColumn` is an association list and the
`map[int]Separator` a position/text association list. -/
structure Dataset where
  headers : List GoStr
  data : List (List Value)
  tags : List (List GoStr)
  title : GoStr
  dynamicCols : List (GoStr × (List Value → Value))
  formatters : List (Value → Value)
  separators : List (Int × GoStr)

/-- Translation of `NewDataset`. -/
def newDataset (headers : List GoStr) : Dataset :=
  { headers := headers, data := [], tags := [], title := [],
    dynamicCols := [], formatters := [], separators := [] }

/-- Translation of `Width`: header count when headers are non-empty, else the
length of the first row, else zero. -/
def Dataset.width (ds : Dataset) : Nat :=
  if ds.headers.length > 0 then ds.headers.length
  else
    match ds.data with
    | [] => 0
    | r :: _ => r.length

/-- Element replacement at a position (no-op when out of range), used for the
in-place updates Go performs through indexing. -/
def modifyAt {α : Type} (l : List α) (i : Nat) (f : α → α) : List α :=
  match l, i with
  | [], _ => []
  | x :: xs, 0 => f x :: xs
  | x :: xs, i + 1 => x :: modifyAt xs i f

/-- Insertion at a position, Go `slices.Insert` of a single element. -/
def insertAt {α : Type} (l : List α) (i : Nat) (a : α) : List α :=
  l.take i ++ a :: l.drop i

/-- Translation of `Append` (dataset.go:103). -/
def Dataset.append (ds : Dataset) (row : List Value) (rowTags : List GoStr) :
    Dataset × Option Err :=
  if ds.width > 0 ∧ row.length ≠ ds.width then (ds, some .invalidDimensions)
  else ({ ds with data := ds.data ++ [row], tags := ds.tags ++ [rowTags] }, none)

/-- Translation of `Insert` (dataset.go:123). -/
def Dataset.insert (ds : Dataset) (index : Int) (row : List Value)
    (rowTags : List GoStr) : Dataset × Option Err :=
  if index < 0 ∨ index > (ds.data.length : Int) then (ds, some .invalidRowIndex)
  else if ds.width > 0 ∧ row.length ≠ ds.width then (ds, some .invalidDimensions)
  else ({ ds with data := insertAt ds.data index.toNat row,
                  tags := insertAt ds.tags index.toNat rowTags }, none)

/-- Translation of `Pop` (dataset.go:142): the removed row and the new state. -/
def Dataset.pop (ds : Dataset) (index : Int) :
    Dataset × Option (List Value) × Option Err :=
  if index < 0 ∨ index ≥ (ds.data.length : Int) then (ds, none, some .invalidRowIndex)
  else ({ ds with data := ds.data.eraseIdx index.toNat,
                  tags := ds.tags.eraseIdx index.toNat },
        some (ds.data.getD index.toNat []), none)

/-- Translation of `Set` (dataset.go:355). -/
def Dataset.set (ds : Dataset) (row col : Int) (value : Value) :
    Dataset × Option Err :=
  if row < 0 ∨ row ≥ (ds.data.length : Int) then (ds, some .invalidRowIndex)
  else if col < 0 ∨ col ≥ (ds.width : Int) then (ds, some .invalidColumnIndex)
  else ({ ds with data := modifyAt ds.data row.toNat (fun r => r.set col.toNat value) },
        none)

/-- Translation of `SetHeaders` (dataset.go:67). -/
def Dataset.setHeaders (ds : Dataset) (headers : List GoStr) :
    Dataset × Option Err :=
  if ds.data.length > 0 ∧ headers.length ≠ ds.width then (ds, some .invalidDimensions)
  else ({ ds with headers := headers }, none)

/-- Translation of `AppendCol` (dataset.go:220): when the dataset has no rows
and `col` is non-empty, `len col` fresh empty rows (and tag sets) are created
first; then the header is appended and each `col[i]` appended to row `i`. -/
def Dataset.appendCol (ds : Dataset) (header : GoStr) (col : List Value) :
    Dataset × Option Err :=
  if ds.data.length > 0 ∧ col.length ≠ ds.data.length then (ds, some .invalidDimensions)
  else
    let d0 : List (List Value) :=
      if ds.data.length = 0 ∧ col.length > 0 then List.replicate col.length [] else ds.data
    let t0 : List (List GoStr) :=
      if ds.data.length = 0 ∧ col.length > 0 then List.replicate col.length [] else ds.tags
    ({ ds with headers := ds.headers ++ [header],
               data := (d0.zip col).map (fun p => p.1 ++ [p.2]),
               tags := t0 }, none)

/-- Translation of `InsertCol` (dataset.go:243).  Go `slices.Insert` panics when
the position exceeds the row length; such states are outside the embedding and
`insertAt` clamps instead. -/
def Dataset.insertCol (ds : Dataset) (index : Int) (header : GoStr)
    (col : List Value) : Dataset × Option Err :=
  if index < 0 ∨ index > (ds.width : Int) then (ds, some .invalidColumnIndex)
  else if ds.data.length > 0 ∧ col.length ≠ ds.data.length then (ds, some .invalidDimensions)
  else
    let d0 : List (List Value) :=
      if ds.data.length = 0 ∧ col.length > 0 then List.replicate col.length [] else ds.data
    let t0 : List (List GoStr) :=
      if ds.data.length = 0 ∧ col.length > 0 then List.replicate col.length [] else ds.tags
    ({ ds with headers := insertAt ds.headers index.toNat header,
               data := (d0.zip col).map (fun p => insertAt p.1 index.toNat p.2),
               tags := t0 }, none)

/-- Translation of `DeleteCol` (dataset.go:269).  Go `slices.Delete` panics on a
headerless table with rows; `eraseIdx` is a no-op there, so panic states are
outside the embedding. -/
def Dataset.deleteCol (ds : Dataset) (index : Int) : Dataset × Option Err :=
  if index < 0 ∨ index ≥ (ds.width : Int) then (ds, some .invalidColumnIndex)
  else ({ ds with headers := ds.headers.eraseIdx index.toNat,
                  data := ds.data.map (fun r => r.eraseIdx index.toNat) }, none)

/-- Translation of `Wipe` (dataset.go:611). -/
def Dataset.wipe (ds : Dataset) : Dataset := { ds with data := [], tags := [] }

/-- Translation of `Copy` (dataset.go:553): fresh dataset with the same headers,
title, dynamic columns, formatters and separators; rows are copied pairwise with
the tag set of the same index. -/
def Dataset.copy (ds : Dataset) : Dataset :=
  { newDataset ds.headers with
    title := ds.title,
    dynamicCols := ds.dynamicCols,
    formatters := ds.formatters,
    separators := ds.separators,
    data := ds.data,
    tags := (ds.data.zip ds.tags).map Prod.snd }

/-- Translation of `Filter` (dataset.go:367): keeps the rows whose tag set
contains `tag`; copies headers, title and the dynamic-column map onto a fresh
`NewDataset` (whose separators and formatters start empty). -/
def Dataset.filter (ds : Dataset) (tag : GoStr) : Dataset :=
  let kept := (ds.data.zip ds.tags).filter (fun p => decide (tag ∈ p.2))
  { newDataset ds.headers with
    title := ds.title,
    dynamicCols := ds.dynamicCols,
    data := kept.map Prod.fst,
    tags := kept.map Prod.snd }

/-- Translation of `headerIndex` (dataset.go:617). -/
def headerIdx (headers : List GoStr) (h : GoStr) : Int :=
  match headers.findIdx? (fun x => decide (x = h)) with
  | some i => (i : Int)
  | none => -1

/-- Translation of `rowKey` (dataset.go:627): the `%v` rendering of every cell,
each followed by a NUL byte. -/
def rowKey (row : List Value) : GoStr := (row.map (fun v => render v ++ [0])).flatten

/-- The scanning loop of `RemoveDuplicates` (dataset.go:529): rows paired with
their tag sets are kept when their key has not been seen before. -/
def dedupGo (seen : List GoStr) :
    List (List Value × List GoStr) → List (List Value × List GoStr)
  | [] => []
  | p :: ps =>
    if decide (rowKey p.1 ∈ seen) then dedupGo seen ps
    else p :: dedupGo (rowKey p.1 :: seen) ps

/-- Translation of `RemoveDuplicates` (dataset.go:529). -/
def Dataset.removeDuplicates (ds : Dataset) : Dataset :=
  let kept := dedupGo [] (ds.data.zip ds.tags)
  { newDataset ds.headers with
    title := ds.title,
    dynamicCols := ds.dynamicCols,
    data := kept.map Prod.fst,
    tags := kept.map Prod.snd }

/-- Translation of `Subset` (dataset.go:503). -/
def Dataset.subset (ds : Dataset) (headers : List GoStr) : Except Err Dataset :=
  if headers.any (fun h => decide (headerIdx ds.headers h = -1)) then .error .columnNotFound
  else
    let indices := headers.map (fun h => (headerIdx ds.headers h).toNat)
    .ok { newDataset headers with
          title := ds.title,
          data := ds.data.map (fun r => indices.map (fun i => r.getD i .vNil)),
          tags := (ds.data.zip ds.tags).map Prod.snd }

/-- Translation of `Transpose` (dataset.go:429).  The source takes the new
headers from the first column through a `string` type assertion, so non-string
cells become the empty string; a dataset with no rows becomes an empty
headerless dataset. -/
def Dataset.transpose (ds : Dataset) : Dataset :=
  if ds.data.length = 0 then newDataset []
  else
    let newHeaders : List GoStr :=
      if ds.headers.length > 0 then
        ds.data.map (fun r => match r.getD 0 .vNil with | .vStr s => s | _ => [])
      else []
    let startCol := if ds.headers.length > 0 then 1 else 0
    let cols := (List.range ds.width).drop startCol
    { newDataset newHeaders with
      title := ds.title,
      data := cols.map (fun c => ds.data.map (fun r => r.getD c .vNil)),
      tags := cols.map (fun _ => []) }

/-- Translation of `StackRows` (dataset.go:471). -/
def Dataset.stackRows (ds other : Dataset) : Except Err Dataset :=
  if ds.width ≠ other.width then .error .invalidDimensions
  else
    let c := ds.copy
    .ok { c with data := c.data ++ other.data,
                 tags := c.tags ++ (other.data.zip other.tags).map Prod.snd }

/-- Translation of `StackCols` (dataset.go:489). -/
def Dataset.stackCols (ds other : Dataset) : Except Err Dataset :=
  if ds.data.length ≠ other.data.length then .error .invalidDimensions
  else
    let c := ds.copy
    .ok { c with headers := c.headers ++ other.headers,
                 data := (c.data.zip other.data).map (fun p => p.1 ++ p.2) }

/-- Ordered insertion used to model the `slices.SortFunc` call in `Sort`.  The
Go library guarantees only that the result is ordered by the comparator (it is
documented as not necessarily stable), so the call is modelled by a sorting
function satisfying that contract, and only consequences that hold for every
correct implementation are asserted about `Dataset.sort`. -/
def insSorted (le : Nat → Nat → Bool) (i : Nat) : List Nat → List Nat
  | [] => [i]
  | j :: js => if le i j then i :: j :: js else j :: insSorted le i js

/-- Sorting function standing in for `slices.SortFunc` on an index slice. -/
def sortIdx (le : Nat → Nat → Bool) : List Nat → List Nat
  | [] => []
  | i :: is => insSorted le i (sortIdx le is)

/-- Translation of `Sort` (dataset.go:388): bounds check, `Copy`, order the row
indices by `compareAny` on the chosen column (negated when `reverse`), and
permute data and tags by the resulting index list. -/
def Dataset.sort (ds : Dataset) (colIndex : Int) (reverse : Bool) :
    Except Err Dataset :=
  if colIndex < 0 ∨ colIndex ≥ (ds.width : Int) then .error .invalidColumnIndex
  else
    let c := ds.copy
    let cmpI : Nat → Nat → Int := fun i j =>
      let a := (c.data.getD i []).getD colIndex.toNat .vNil
      let b := (c.data.getD j []).getD colIndex.toNat .vNil
      if reverse then -(compareAny a b) else compareAny a b
    let idx := sortIdx (fun i j => decide (cmpI i j ≤ 0)) (List.range c.data.length)
    .ok { c with data := idx.map (fun i => c.data.getD i []),
                 tags := idx.map (fun i => c.tags.getD i []) }

/-! ### Claim C8: Append failure atomicity -/

/-- C8: for every dataset with positive width, `Append` with a row whose length
differs from the width fails with `ErrInvalidDimensions` and returns the
dataset unchanged (row count, stored rows and tags included). -/
theorem append_wrong_length_fails_atomically (ds : Dataset) (row : List Value)
    (rowTags : List GoStr) (hw : 0 < ds.width) (hl : row.length ≠ ds.width) :
    ds.append row rowTags = (ds, some .invalidDimensions) := by
  unfold Dataset.append
  rw [if_pos ⟨hw, hl⟩]

/-- Witness for C8: a dataset with one header rejects an empty row unchanged. -/
theorem append_wrong_length_fails_atomically_witness :
    0 < (newDataset [str "A"]).width ∧
    ([] : List Value).length ≠ (newDataset [str "A"]).width ∧
    (newDataset [str "A"]).append [] [] = (newDataset [str "A"], some .invalidDimensions) :=
  ⟨by decide, by decide,
    append_wrong_length_fails_atomically (newDataset [str "A"]) [] [] (by decide) (by decide)⟩

/-! ### Claim C3: the row-length/width invariant -/

/-- C3 evidence: `AppendCol` applied to a dataset that already has a header but
no rows succeeds (returns no error) yet leaves the freshly created row shorter
than the width: the width becomes 2 while the only row is `[1]`. -/
theorem appendCol_breaks_width_invariant :
    ((newDataset [str "A"]).appendCol (str "B") [.vInt 1]).2 = none ∧
    ((newDataset [str "A"]).appendCol (str "B") [.vInt 1]).1.width = 2 ∧
    ((newDataset [str "A"]).appendCol (str "B") [.vInt 1]).1.data = [[.vInt 1]] := by
  exact ⟨rfl, by decide, by decide⟩

/-! ### Claim C4: metadata carried by derivation operations -/

/-- C4 amended: what each derivation operation actually does with the
receiver's metadata.  `Copy` (and therefore `Sort`, `StackRows`, `StackCols`,
which start from `Copy`) carries title, dynamic columns, formatters and
separators; `Filter` and `RemoveDuplicates` carry title and dynamic columns but
start with empty formatters and separators; `Subset` and `Transpose` carry only
the title. -/
theorem derivation_metadata (ds other : Dataset) (tag : GoStr) (hs : List GoStr)
    (col : Int) (rev : Bool) (htags : ds.tags.length = ds.data.length) :
    (ds.copy.headers = ds.headers ∧ ds.copy.data = ds.data ∧ ds.copy.tags = ds.tags ∧
      ds.copy.title = ds.title ∧ ds.copy.dynamicCols = ds.dynamicCols ∧
      ds.copy.formatters = ds.formatters ∧ ds.copy.separators = ds.separators) ∧
    ((ds.filter tag).title = ds.title ∧ (ds.filter tag).dynamicCols = ds.dynamicCols ∧
      (ds.filter tag).formatters = [] ∧ (ds.filter tag).separators = []) ∧
    (ds.removeDuplicates.title = ds.title ∧ ds.removeDuplicates.dynamicCols = ds.dynamicCols ∧
      ds.removeDuplicates.formatters = [] ∧ ds.removeDuplicates.separators = []) ∧
    (∀ out, ds.sort col rev = .ok out →
      out.title = ds.title ∧ out.dynamicCols = ds.dynamicCols ∧
      out.formatters = ds.formatters ∧ out.separators = ds.separators) ∧
    (∀ out, ds.stackRows other = .ok out →
      out.title = ds.title ∧ out.dynamicCols = ds.dynamicCols ∧
      out.formatters = ds.formatters ∧ out.separators = ds.separators) ∧
    (∀ out, ds.stackCols other = .ok out →
      out.title = ds.title ∧ out.dynamicCols = ds.dynamicCols ∧
      out.formatters = ds.formatters ∧ out.separators = ds.separators) ∧
    (∀ out, ds.subset hs = .ok out →
      out.title = ds.title ∧ out.dynamicCols = [] ∧
      out.formatters = [] ∧ out.separators = []) ∧
    (ds.transpose.dynamicCols = [] ∧ ds.transpose.formatters = [] ∧
      ds.transpose.separators = [] ∧ (ds.data ≠ [] → ds.transpose.title = ds.title)) := by
  refine ⟨⟨rfl, rfl, ?_, rfl, rfl, rfl, rfl⟩, ⟨rfl, rfl, rfl, rfl⟩, ⟨rfl, rfl, rfl, rfl⟩,
    ?_, ?_, ?_, ?_, ?_⟩
  · exact List.map_snd_zip ds.data ds.tags htags.le
  · intro out h
    unfold Dataset.sort at h
    split at h
    · exact absurd h (by simp)
    · simp only [Except.ok.injEq] at h
      subst h
      exact ⟨rfl, rfl, rfl, rfl⟩
  · intro out h
    unfold Dataset.stackRows at h
    split at h
    · exact absurd h (by simp)
    · simp only [Except.ok.injEq] at h
      subst h
      exact ⟨rfl, rfl, rfl, rfl⟩
  · intro out h
    unfold Dataset.stackCols at h
    split at h
    · exact absurd h (by simp)
    · simp only [Except.ok.injEq] at h
      subst h
      exact ⟨rfl, rfl, rfl, rfl⟩
  · intro out h
    unfold Dataset.subset at h
    split at h
    · exact absurd h (by simp)
    · simp only [Except.ok.injEq] at h
      subst h
      exact ⟨rfl, rfl, rfl, rfl⟩
  · unfold Dataset.transpose
    split
    next h => exact ⟨rfl, rfl, rfl, fun hne => absurd (List.length_eq_zero.mp h) hne⟩
    next => exact ⟨rfl, rfl, rfl, fun _ => rfl⟩

/-- Concrete dataset carrying one formatter and one separator. -/
def cexFormatterDs : Dataset :=
  { newDataset [str "A"] with formatters := [fun v => v], separators := [(0, str "s")] }

/-- C4 counterexample: `Filter` does not copy the formatter list (the derived
dataset is built on `NewDataset`, so it has no formatters), refuting the claim
that every derivation operation copies the formatter list and separators. -/
theorem filter_drops_formatters_cex :
    cexFormatterDs.formatters.length = 1 ∧ cexFormatterDs.separators.length = 1 ∧
    (cexFormatterDs.filter (str "t")).formatters.length = 0 ∧
    (cexFormatterDs.filter (str "t")).separators.length = 0 :=
  ⟨rfl, rfl, rfl, rfl⟩

/-- Concrete one-row dataset with a title, for the C4 witness. -/
def metadataWitnessDs : Dataset :=
  { newDataset [str "A"] with
    data := [[.vInt 1]],
    tags := [[]],
    title := str "t" }

/-- Witness for C4 at a concrete dataset with one row and one tag set. -/
theorem derivation_metadata_witness :
    metadataWitnessDs.tags.length = metadataWitnessDs.data.length ∧
    metadataWitnessDs.copy.title = str "t" := by
  refine ⟨by decide, ?_⟩
  exact (derivation_metadata metadataWitnessDs (newDataset []) (str "x") [] 0 false
    (by decide)).1.2.2.2.1

/-! ### Claim C6: Transpose semantics -/

/-- Column `c` of a row matrix (reading past a row's end is a Go panic, kept
out of the embedding by the row-length hypotheses of the theorems). -/
def column (d : List (List Value)) (c : Nat) : List Value :=
  d.map (fun r => r.getD c .vNil)

/-- Result of the Go type assertion `v.(string)` as used by `Transpose`: the
string itself for string cells, the empty string for every other kind. -/
def stringAssert : Value → GoStr
  | .vStr s => s
  | _ => []

/-- Helper: dropping the first element of `range n` gives `range' 1 (n-1)`. -/
theorem range_drop_one (n : Nat) : (List.range n).drop 1 = List.range' 1 (n - 1) := by
  cases n with
  | zero => rfl
  | succ m =>
    rw [List.range_eq_range', List.range'_succ]
    rfl

/-- C6 amended: for a dataset with rows and non-empty headers, `Transpose`
takes as headers the first column passed through the Go `string` type assertion
(so non-string cells become the empty string, not their text rendering), one
header per source row, and the remaining columns become the rows; with empty
headers all columns become rows and the result has no headers; with no rows the
result is the empty headerless dataset. -/
theorem transpose_characterization (ds : Dataset)
    (hrows : ∀ r ∈ ds.data, r.length = ds.width) :
    (ds.data = [] → ds.transpose = newDataset []) ∧
    (ds.data ≠ [] → ds.headers ≠ [] →
      ds.transpose.headers = (column ds.data 0).map stringAssert ∧
      ds.transpose.data = (List.range' 1 (ds.width - 1)).map (column ds.data) ∧
      ds.transpose.headers.length = ds.data.length) ∧
    (ds.headers = [] →
      ds.transpose.headers = [] ∧
      ds.transpose.data = (List.range' 0 ds.width).map (column ds.data)) := by
  clear hrows
  refine ⟨?_, ?_, ?_⟩
  · intro h
    unfold Dataset.transpose
    rw [if_pos (by simp [h])]
  · intro hne hh
    have hdl : ¬ ds.data.length = 0 := by simpa using hne
    have hhl : ds.headers.length > 0 := List.length_pos.mpr hh
    unfold Dataset.transpose
    rw [if_neg hdl]
    simp only [if_pos hhl]
    refine ⟨?_, ?_, ?_⟩
    · simp only [column, List.map_map, Function.comp_apply]
      apply List.map_congr_left
      intro r _
      simp only [Function.comp_apply]
      cases r.getD 0 .vNil <;> rfl
    · simp only [range_drop_one]
      rfl
    · simp [newDataset]
  · intro hh
    by_cases hd : ds.data.length = 0
    · unfold Dataset.transpose
      rw [if_pos hd]
      constructor
      · rfl
      · have : ds.width = 0 := by
          unfold Dataset.width
          rw [if_neg (by simp [hh])]
          cases hdata : ds.data with
          | nil => rfl
          | cons r t => rw [hdata] at hd; simp at hd
        rw [this]
        rfl
    · unfold Dataset.transpose
      rw [if_neg hd]
      simp only [hh, List.length_nil, gt_iff_lt, lt_self_iff_false, if_false]
      constructor
      · rfl
      · rw [List.drop_zero, List.range_eq_range']
        rfl

/-- Concrete dataset whose first column holds a non-string cell. -/
def cexTransposeDs : Dataset :=
  { newDataset [str "H", str "K"] with data := [[.vInt 1, .vStr (str "x")]], tags := [[]] }

/-- C6 counterexample: the claim says transposed headers are the string
renderings of the first column, but the source's type assertion maps the
integer cell `1` to `""` rather than to its rendering `"1"`. -/
theorem transpose_headers_not_rendered_cex :
    cexTransposeDs.transpose.headers = [[]] ∧
    cexTransposeDs.data.map (fun r => render (r.getD 0 .vNil)) = [str "1"] ∧
    cexTransposeDs.transpose.headers ≠
      cexTransposeDs.data.map (fun r => render (r.getD 0 .vNil)) := by
  refine ⟨by decide, by decide, by decide⟩

/-- Witness for C6 at a concrete two-column dataset with one row. -/
theorem transpose_characterization_witness :
    (∀ r ∈ ({ newDataset [str "a", str "b"] with
        data := [[.vStr (str "t"), .vInt 2]], tags := [[]] } : Dataset).data,
      r.length = ({ newDataset [str "a", str "b"] with
        data := [[.vStr (str "t"), .vInt 2]], tags := [[]] } : Dataset).width) ∧
    ({ newDataset [str "a", str "b"] with
        data := [[.vStr (str "t"), .vInt 2]], tags := [[]] } : Dataset).transpose.headers =
      (column [[.vStr (str "t"), .vInt 2]] 0).map stringAssert := by
  refine ⟨by decide, ?_⟩
  exact ((transpose_characterization _ (by decide)).2.1 (by decide) (by decide)).1

/-! ### Claim C7: the cross-type comparison contract -/

/-- Concrete-kind tag of a cell value (the Go dynamic type). -/
inductive VKind where
  | kInt | kInt64 | kStr | kBool | kNil
  deriving DecidableEq

/-- Kind of a value. -/
def Value.kind : Value → VKind
  | .vInt _ => .kInt
  | .vInt64 _ => .kInt64
  | .vStr _ => .kStr
  | .vBool _ => .kBool
  | .vNil => .kNil

/-- Native comparison of two values of the same natively-ordered kind
(arbitrary on other inputs, where it is never used). -/
def nativeCmp : Value → Value → Int
  | .vInt x, .vInt y => cmp3 x y
  | .vInt64 x, .vInt64 y => cmp3 x y
  | .vStr x, .vStr y => cmpStr x y
  | _, _ => 0

/-- Comparison as the specification phrases it: native when both operands share
a natively-ordered concrete kind, lexicographic comparison of the canonical
textual renderings otherwise. -/
def specCompare (a b : Value) : Int :=
  if a.kind = b.kind ∧ (a.kind = .kInt ∨ a.kind = .kInt64 ∨ a.kind = .kStr)
  then nativeCmp a b
  else cmpStr (render a) (render b)

/-- Sign antisymmetry of the integer comparison. -/
theorem cmp3_antisymm (a b : Int) : cmp3 b a = -(cmp3 a b) := by
  unfold cmp3
  split_ifs <;> omega

/-- Sign antisymmetry of the lexicographic byte comparison. -/
theorem cmpStr_antisymm : ∀ a b : GoStr, cmpStr b a = -(cmpStr a b)
  | [], [] => rfl
  | [], _ :: _ => rfl
  | _ :: _, [] => rfl
  | a :: as, b :: bs => by
    simp only [cmpStr]
    rcases Nat.lt_trichotomy a b with h | h | h
    · have h2 := Nat.lt_asymm h
      simp [h, h2]
    · subst h
      simp only [lt_irrefl, if_false]
      exact cmpStr_antisymm as bs
    · have h2 := Nat.lt_asymm h
      simp [h, h2]

/-- Sign antisymmetry of `compareAny`: swapping the operands negates the
result, so the comparison is total. -/
theorem compareAny_antisymm (a b : Value) : compareAny b a = -(compareAny a b) := by
  cases a <;> cases b <;>
    simp only [compareAny] <;>
    first
      | apply cmp3_antisymm
      | apply cmpStr_antisymm

/-- C7 amended: `compareAny` compares natively exactly when both operands have
the same natively-ordered concrete kind and otherwise compares the canonical
renderings lexicographically, and the relation is total (sign-antisymmetric);
it is however not a total order, see the transitivity counterexample. -/
theorem compareAny_follows_spec (a b : Value) :
    compareAny a b = specCompare a b ∧ compareAny b a = -(compareAny a b) := by
  constructor
  · cases a <;> cases b <;>
      simp [compareAny, specCompare, Value.kind, nativeCmp]
  · exact compareAny_antisymm a b

/-- C7 counterexample: `compareAny` is not transitive, hence not a total order:
the integer 10 sorts before the string "5" (text fallback), the string "5"
sorts before the integer 9 (text fallback), but 9 sorts before 10 natively. -/
theorem compareAny_not_transitive_cex :
    compareAny (.vInt 10) (.vStr (str "5")) = -1 ∧
    compareAny (.vStr (str "5")) (.vInt 9) = -1 ∧
    compareAny (.vInt 9) (.vInt 10) = -1 ∧
    ¬ (∀ a b c : Value, compareAny a b ≤ 0 → compareAny b c ≤ 0 →
        compareAny a c ≤ 0) := by
  refine ⟨by decide, by decide, by decide, fun h => ?_⟩
  have h1 := h (.vStr (str "5")) (.vInt 9) (.vInt 10) (by decide) (by decide)
  exact absurd h1 (by decide)

/-! ### Claim C9: RemoveDuplicates keeps first occurrences -/

/-- Fuel-indexed specification of first-occurrence deduplication: keep the head
row, drop every later row with the same structural key, recurse on the rest.
The fuel (the list length) keeps the recursion structural. -/
def dedupKeysGo : Nat → List (List Value) → List (List Value)
  | 0, _ => []
  | _ + 1, [] => []
  | fuel + 1, r :: rs =>
    r :: dedupKeysGo fuel (rs.filter (fun q => decide (rowKey q ≠ rowKey r)))

/-- First-occurrence deduplication by structural key, specification form. -/
def dedupKeys (l : List (List Value)) : List (List Value) := dedupKeysGo l.length l

/-- The fuel argument is irrelevant once it covers the list length. -/
theorem dedupKeysGo_fuel_irrel :
    ∀ fuel fuel2 (l : List (List Value)), l.length ≤ fuel → l.length ≤ fuel2 →
      dedupKeysGo fuel l = dedupKeysGo fuel2 l := by
  intro fuel
  induction fuel with
  | zero =>
    intro fuel2 l h _
    have : l = [] := List.length_eq_zero.mp (Nat.le_zero.mp h)
    subst this
    cases fuel2 <;> rfl
  | succ f ih =>
    intro fuel2 l h h2
    cases l with
    | nil => cases fuel2 <;> rfl
    | cons r rs =>
      cases fuel2 with
      | zero => simp at h2
      | succ f2 =>
        simp only [dedupKeysGo]
        rw [ih f2 (rs.filter (fun q => decide (rowKey q ≠ rowKey r)))
          (le_trans (rs.filter_sublist.length_le) (by simpa using h))
          (le_trans (rs.filter_sublist.length_le) (by simpa using h2))]

/-- Unfolding equation of `dedupKeys` on a cons cell. -/
theorem dedupKeys_cons (r : List Value) (rs : List (List Value)) :
    dedupKeys (r :: rs) =
      r :: dedupKeys (rs.filter (fun q => decide (rowKey q ≠ rowKey r))) := by
  unfold dedupKeys
  simp only [List.length_cons, dedupKeysGo]
  rw [dedupKeysGo_fuel_irrel rs.length (rs.filter (fun q => decide (rowKey q ≠ rowKey r))).length
    _ (rs.filter_sublist.length_le) le_rfl]

/-- The deduplicated list is a sublist of the input: input order is kept. -/
theorem dedupKeysGo_sublist :
    ∀ fuel (l : List (List Value)), (dedupKeysGo fuel l).Sublist l := by
  intro fuel
  induction fuel with
  | zero => intro l; cases l <;> simp [dedupKeysGo]
  | succ f ih =>
    intro l
    cases l with
    | nil => simp [dedupKeysGo]
    | cons r rs =>
      simp only [dedupKeysGo]
      exact (ih _).trans rs.filter_sublist |>.cons₂ r

/-- The scanning loop of `RemoveDuplicates` computes first-occurrence
deduplication of the rows whose key is not already in `seen`. -/
theorem dedupGo_eq_dedupKeys :
    ∀ (l : List (List Value × List GoStr)) (seen : List GoStr),
      (dedupGo seen l).map Prod.fst =
        dedupKeys ((l.map Prod.fst).filter (fun r => decide (rowKey r ∉ seen))) := by
  intro l
  induction l with
  | nil => intro seen; rfl
  | cons p ps ih =>
    intro seen
    simp only [dedupGo, List.map_cons, List.filter_cons]
    by_cases h : rowKey p.1 ∈ seen
    · have h1 : decide (rowKey p.1 ∈ seen) = true := decide_eq_true h
      have h2 : ¬(decide (rowKey p.1 ∉ seen) = true) := by simp [h]
      rw [if_pos h1, if_neg h2]
      exact ih seen
    · have h1 : ¬(decide (rowKey p.1 ∈ seen) = true) := by simp [h]
      have h2 : decide (rowKey p.1 ∉ seen) = true := decide_eq_true h
      rw [if_neg h1, if_pos h2, List.map_cons, dedupKeys_cons]
      congr 1
      rw [ih (rowKey p.1 :: seen), List.filter_filter]
      congr 1
      apply List.filter_congr
      intro q _
      simp only [List.mem_cons, not_or, Bool.decide_and]

/-- C9: `RemoveDuplicates` keeps exactly the first occurrence of each row,
where two rows are duplicates precisely when their structural keys coincide,
and the survivors keep their input order (the result is a sublist). -/
theorem removeDuplicates_keeps_first_occurrences (ds : Dataset)
    (htags : ds.tags.length = ds.data.length) :
    ds.removeDuplicates.data = dedupKeys ds.data ∧
    ds.removeDuplicates.data.Sublist ds.data := by
  have hdata : (ds.data.zip ds.tags).map Prod.fst = ds.data :=
    List.map_fst_zip ds.data ds.tags htags.ge
  have key : ds.removeDuplicates.data = dedupKeys ds.data := by
    show (dedupGo [] (ds.data.zip ds.tags)).map Prod.fst = dedupKeys ds.data
    rw [dedupGo_eq_dedupKeys, hdata]
    congr 1
    simp
  refine ⟨key, ?_⟩
  rw [key]
  unfold dedupKeys
  exact dedupKeysGo_sublist _ _

/-- Concrete Alice/Bob/Alice dataset. -/
def dedupWitnessDs : Dataset :=
  { newDataset [str "Name"] with
    data := [[.vStr (str "Alice")], [.vStr (str "Bob")], [.vStr (str "Alice")]],
    tags := [[], [], []] }

/-- Witness for C9: rows [["Alice"],["Bob"],["Alice"]] keep [["Alice"],["Bob"]]. -/
theorem removeDuplicates_keeps_first_occurrences_witness :
    dedupWitnessDs.tags.length = dedupWitnessDs.data.length ∧
    dedupWitnessDs.removeDuplicates.data = dedupKeys dedupWitnessDs.data ∧
    dedupKeys dedupWitnessDs.data = [[.vStr (str "Alice")], [.vStr (str "Bob")]] := by
  refine ⟨by decide, (removeDuplicates_keeps_first_occurrences dedupWitnessDs (by decide)).1,
    by decide⟩

/-! ### Claim C2: Sort

The source sorts an index slice with Go `slices.SortFunc`, whose contract
guarantees an ordering by the comparator for consistent comparators but
explicitly not stability.  The lemmas below therefore establish only the
properties shared by every comparator-respecting sort: the result is a
permutation, it is pairwise ordered whenever the comparator is transitive on
the values involved, and under a strict total order the sorted permutation is
unique. -/

/-- Cell of a row at a column index (Go `row[col]`, in-range by invariant). -/
def cellAt (r : List Value) (col : Int) : Value := r.getD col.toNat .vNil

/-- The multiset of values in one column of the dataset. -/
def colVals (ds : Dataset) (col : Int) : List Value :=
  ds.data.map (fun r => cellAt r col)

/-- Row ordering used by `Sort` on the chosen column, direction included. -/
def rowLe (col : Int) (rev : Bool) (r s : List Value) : Prop :=
  if rev then compareAny (cellAt s col) (cellAt r col) ≤ 0
  else compareAny (cellAt r col) (cellAt s col) ≤ 0

/-- Inserting an element permutes the cons. -/
theorem insSorted_perm (le : Nat → Nat → Bool) (i : Nat) :
    ∀ l : List Nat, (insSorted le i l).Perm (i :: l) := by
  intro l
  induction l with
  | nil => exact List.Perm.refl _
  | cons j js ih =>
    simp only [insSorted]
    split
    · exact List.Perm.refl _
    · exact (ih.cons j).trans (List.Perm.swap i j js)

/-- The modelled sort permutes its input. -/
theorem sortIdx_perm (le : Nat → Nat → Bool) :
    ∀ l : List Nat, (sortIdx le l).Perm l := by
  intro l
  induction l with
  | nil => exact List.Perm.refl _
  | cons i is ih => exact (insSorted_perm le i (sortIdx le is)).trans (ih.cons i)

/-- Inserting into an ordered list keeps it ordered, provided the comparator is
total everywhere and transitive on the carrier `S` of all elements involved. -/
theorem insSorted_sorted (le : Nat → Nat → Bool) (S : List Nat)
    (htot : ∀ i j, le i j = true ∨ le j i = true)
    (htrans : ∀ i ∈ S, ∀ j ∈ S, ∀ k ∈ S,
      le i j = true → le j k = true → le i k = true)
    (i : Nat) (hi : i ∈ S) :
    ∀ l : List Nat, (∀ x ∈ l, x ∈ S) →
      l.Pairwise (fun a b => le a b = true) →
      (insSorted le i l).Pairwise (fun a b => le a b = true) := by
  intro l
  induction l with
  | nil =>
    intro _ _
    simp [insSorted]
  | cons j js ih =>
    intro hmem hp
    simp only [insSorted]
    rcases List.pairwise_cons.mp hp with ⟨hj, hjs⟩
    split
    next hle =>
      refine List.pairwise_cons.mpr ⟨?_, hp⟩
      intro x hx
      rcases List.mem_cons.mp hx with rfl | hx
      · exact hle
      · exact htrans i hi j (hmem j (by simp)) x (hmem x (by simp [hx])) hle (hj x hx)
    next hle =>
      have hji : le j i = true := by
        rcases htot i j with h | h
        · exact absurd h hle
        · exact h
      refine List.pairwise_cons.mpr ⟨?_, ih (fun x hx => hmem x (by simp [hx])) hjs⟩
      intro x hx
      have hx2 := (insSorted_perm le i js).mem_iff.mp hx
      rcases List.mem_cons.mp hx2 with rfl | hx2
      · exact hji
      · exact hj x hx2

/-- The modelled sort orders its output by the comparator, provided the
comparator is total everywhere and transitive on the carrier `S`. -/
theorem sortIdx_sorted (le : Nat → Nat → Bool) (S : List Nat)
    (htot : ∀ i j, le i j = true ∨ le j i = true)
    (htrans : ∀ i ∈ S, ∀ j ∈ S, ∀ k ∈ S,
      le i j = true → le j k = true → le i k = true) :
    ∀ l : List Nat, (∀ x ∈ l, x ∈ S) →
      (sortIdx le l).Pairwise (fun a b => le a b = true) := by
  intro l
  induction l with
  | nil => intro _; simp [sortIdx]
  | cons i is ih =>
    intro hmem
    exact insSorted_sorted le S htot htrans i (hmem i (by simp))
      (sortIdx le is)
      (fun x hx => hmem x (by simp [(sortIdx_perm le is).mem_iff.mp hx]))
      (ih (fun x hx => hmem x (by simp [hx])))

/-- Two ordered lists that are permutations of one another coincide, provided
the order is antisymmetric on the elements involved. -/
theorem sorted_perm_eq {α : Type} (r : α → α → Prop) :
    ∀ l1 l2 : List α, l1.Perm l2 → l1.Pairwise r → l2.Pairwise r →
      (∀ a ∈ l1, ∀ b ∈ l1, r a b → r b a → a = b) → l1 = l2 := by
  intro l1
  induction l1 with
  | nil =>
    intro l2 hp _ _ _
    exact (hp.nil_eq).symm ▸ rfl
  | cons a t1 ih =>
    intro l2 hp hp1 hp2 hanti
    cases l2 with
    | nil => exact absurd hp.symm (by simp)
    | cons b t2 =>
      have hab : a = b := by
        have hamem : a ∈ b :: t2 := hp.mem_iff.mp (by simp)
        rcases List.mem_cons.mp hamem with h | h
        · exact h
        · have hbmem : b ∈ a :: t1 := hp.mem_iff.mpr (by simp)
          rcases List.mem_cons.mp hbmem with h2 | h2
          · exact h2.symm
          · have hrab : r a b := (List.pairwise_cons.mp hp1).1 b h2
            have hrba : r b a := (List.pairwise_cons.mp hp2).1 a h
            exact hanti a (by simp) b (by simp [h2]) hrab hrba
      subst hab
      have hperm : t1.Perm t2 := hp.cons_inv
      have := ih t2 hperm (List.pairwise_cons.mp hp1).2 (List.pairwise_cons.mp hp2).2
        (fun x hx y hy => hanti x (by simp [hx]) y (by simp [hy]))
      rw [this]

/-- Reading back every position of a list is the identity. -/
theorem map_getD_range {α : Type} (l : List α) (d : α) :
    (List.range l.length).map (fun i => l.getD i d) = l := by
  apply List.ext_getElem (by simp)
  intro i h1 h2
  rw [List.getElem_map, List.getElem_range, List.getD_eq_getElem l d h2]

/-- Membership of an in-range `getD` read. -/
theorem getD_mem_of_lt {α : Type} (l : List α) (d : α) (i : Nat) (h : i < l.length) :
    l.getD i d ∈ l := by
  rw [List.getD_eq_getElem l d h]
  exact l.getElem_mem h

/-- C2 amended: when `compareAny` is transitive on the chosen column's values,
a successful `Sort` returns a permutation of the rows that is pairwise ordered
by `compareAny` on that column (in the requested direction), and sorting
ascending then descending yields exactly the reverse of the first result
whenever additionally no two rows tie on the column.  (Stability of tie-breaks
is not asserted: the source calls Go `slices.SortFunc`, which is documented as
not guaranteed stable.) -/
theorem sort_by_compare (ds : Dataset) (col : Int)
    (htrans : ∀ a ∈ colVals ds col, ∀ b ∈ colVals ds col, ∀ c ∈ colVals ds col,
      compareAny a b ≤ 0 → compareAny b c ≤ 0 → compareAny a c ≤ 0) :
    (∀ rev out, ds.sort col rev = .ok out →
      out.data.Perm ds.data ∧ out.data.Pairwise (rowLe col rev)) ∧
    (∀ out1 out2, ds.sort col false = .ok out1 → out1.sort col true = .ok out2 →
      ds.data.Pairwise (fun r s => compareAny (cellAt r col) (cellAt s col) ≠ 0) →
      out2.data = out1.data.reverse) := by
  have copy_data : ∀ d : Dataset, d.copy.data = d.data := fun _ => rfl
  have main : ∀ (d : Dataset), (∀ a ∈ colVals d col, a ∈ colVals ds col) →
      ∀ rev out, d.sort col rev = .ok out →
        out.data.Perm d.data ∧ out.data.Pairwise (rowLe col rev) := by
    intro d hsub rev out h
    unfold Dataset.sort at h
    split at h
    · exact absurd h (by simp)
    · simp only [Except.ok.injEq] at h
      subst h
      refine ⟨(List.Perm.map _ (sortIdx_perm _ _)).trans ?_, ?_⟩
      · show ((List.range d.data.length).map (fun i => d.data.getD i [])).Perm d.data
        rw [map_getD_range]
      rw [List.pairwise_map]
      have hvals : ∀ i, i < d.data.length →
          ((d.data.getD i []).getD col.toNat .vNil) ∈ colVals ds col := by
        intro i hi
        apply hsub
        exact List.mem_map.mpr ⟨d.data.getD i [], getD_mem_of_lt _ _ _ hi, rfl⟩
      refine List.Pairwise.imp ?_
        (sortIdx_sorted _ (List.range d.data.length) ?_ ?_ _ (fun x hx => hx))
      · intro i j hle
        simp only [decide_eq_true_eq, copy_data] at hle
        unfold rowLe cellAt
        simp only [copy_data]
        have ha := compareAny_antisymm ((d.data.getD i []).getD col.toNat .vNil)
          ((d.data.getD j []).getD col.toNat .vNil)
        by_cases hrev : rev = true
        · simp only [if_pos hrev] at hle ⊢
          omega
        · simp only [if_neg hrev] at hle ⊢
          exact hle
      · intro i j
        simp only [decide_eq_true_eq, copy_data]
        have ha := compareAny_antisymm ((d.data.getD i []).getD col.toNat .vNil)
          ((d.data.getD j []).getD col.toNat .vNil)
        by_cases hrev : rev = true
        · simp only [if_pos hrev]
          omega
        · simp only [if_neg hrev]
          omega
      · intro i hiS j hjS k hkS hij hjk
        simp only [List.mem_range] at hiS hjS hkS
        simp only [decide_eq_true_eq, copy_data] at hij hjk ⊢
        have hi := hvals i hiS
        have hj := hvals j hjS
        have hk := hvals k hkS
        have ha1 := compareAny_antisymm ((d.data.getD i []).getD col.toNat .vNil)
          ((d.data.getD j []).getD col.toNat .vNil)
        have ha2 := compareAny_antisymm ((d.data.getD j []).getD col.toNat .vNil)
          ((d.data.getD k []).getD col.toNat .vNil)
        have ha3 := compareAny_antisymm ((d.data.getD i []).getD col.toNat .vNil)
          ((d.data.getD k []).getD col.toNat .vNil)
        by_cases hrev : rev = true
        · simp only [if_pos hrev] at hij hjk ⊢
          have h1 : compareAny ((d.data.getD k []).getD col.toNat .vNil)
              ((d.data.getD j []).getD col.toNat .vNil) ≤ 0 := by omega
          have h2 : compareAny ((d.data.getD j []).getD col.toNat .vNil)
              ((d.data.getD i []).getD col.toNat .vNil) ≤ 0 := by omega
          have h3 := htrans _ hk _ hj _ hi h1 h2
          omega
        · simp only [if_neg hrev] at hij hjk ⊢
          exact htrans _ hi _ hj _ hk hij hjk
  constructor
  · exact main ds (fun a ha => ha)
  · intro out1 out2 h1 h2 hnt
    have m1 := main ds (fun a ha => ha) false out1 h1
    have hsub1 : ∀ a ∈ colVals out1 col, a ∈ colVals ds col := by
      intro a ha
      exact (List.Perm.map (fun r => cellAt r col) m1.1).mem_iff.mp ha
    have m2 := main out1 hsub1 true out2 h2
    have hmem2 : ∀ a ∈ out2.data, a ∈ ds.data :=
      fun a ha => m1.1.mem_iff.mp (m2.1.mem_iff.mp ha)
    have hrevsorted : (out1.data.reverse).Pairwise (rowLe col true) := by
      rw [List.pairwise_reverse]
      refine m1.2.imp ?_
      intro a b hab
      unfold rowLe at hab ⊢
      simpa using hab
    have hpermrev : out2.data.Perm out1.data.reverse :=
      m2.1.trans (out1.data.reverse_perm).symm
    have hne : ∀ a ∈ ds.data, ∀ b ∈ ds.data, a ≠ b →
        compareAny (cellAt a col) (cellAt b col) ≠ 0 := by
      intro a ha b hb hab
      refine List.Pairwise.forall ?_ hnt ha hb hab
      intro x y hxy
      have := compareAny_antisymm (cellAt x col) (cellAt y col)
      omega
    apply sorted_perm_eq (rowLe col true) out2.data out1.data.reverse hpermrev
      m2.2 hrevsorted
    intro a ha b hb hab hba
    by_contra hneq
    have h0 : compareAny (cellAt a col) (cellAt b col) = 0 := by
      unfold rowLe at hab hba
      have := compareAny_antisymm (cellAt a col) (cellAt b col)
      simp only [if_true] at hab hba
      omega
    exact hne a (hmem2 a ha) b (hmem2 b hb) hneq h0

/-- Concrete Name/Age dataset of the specification's sorting scenario. -/
def sortWitnessDs : Dataset :=
  { newDataset [str "Name", str "Age"] with
    data := [[.vStr (str "Alice"), .vInt 30], [.vStr (str "Bob"), .vInt 25],
      [.vStr (str "Charlie"), .vInt 35]],
    tags := [[], [], []] }

/-- The ascending sort of `sortWitnessDs` on column 1 (ages 25, 30, 35). -/
def sortWitnessSorted : Dataset :=
  { newDataset [str "Name", str "Age"] with
    data := [[.vStr (str "Bob"), .vInt 25], [.vStr (str "Alice"), .vInt 30],
      [.vStr (str "Charlie"), .vInt 35]],
    tags := [[], [], []] }

/-- Witness for C2: sorting the Name/Age table ascending by age yields
Bob(25), Alice(30), Charlie(35), a permutation pairwise ordered by the age
column. -/
theorem sort_by_compare_witness :
    (∀ a ∈ colVals sortWitnessDs 1, ∀ b ∈ colVals sortWitnessDs 1,
      ∀ c ∈ colVals sortWitnessDs 1,
      compareAny a b ≤ 0 → compareAny b c ≤ 0 → compareAny a c ≤ 0) ∧
    sortWitnessDs.sort 1 false = .ok sortWitnessSorted ∧
    sortWitnessSorted.data.Perm sortWitnessDs.data ∧
    sortWitnessSorted.data.Pairwise (rowLe 1 false) := by
  have h := (sort_by_compare sortWitnessDs 1 (by decide)).1 false sortWitnessSorted rfl
  exact ⟨by decide, rfl, h.1, h.2⟩

/-- Concrete dataset with two identical rows tying on the sort column. -/
def cexTieDs : Dataset :=
  { newDataset [] with data := [[.vInt 1], [.vInt 1]], tags := [[], []] }

/-- Ascending sort of `cexTieDs` on column 0. -/
def cexTieSorted : Dataset := (cexTieDs.sort 0 false).toOption.getD cexTieDs

/-- C2 counterexample to the claimed equivalence: with two identical rows the
double sort equals the reverse of the first result (all four lists coincide),
although the two rows tie on the column; so reverse-equality holds while "no
two rows tie" fails, refuting "exactly when". -/
theorem sort_reverse_iff_cex :
    cexTieSorted.data = [[.vInt 1], [.vInt 1]] ∧
    (cexTieSorted.sort 0 true).toOption.map Dataset.data =
      some cexTieSorted.data.reverse ∧
    compareAny (cellAt [.vInt 1] 0) (cellAt [.vInt 1] 0) = 0 := by
  refine ⟨rfl, rfl, by decide⟩

/-! ### The Binary Table Codec (dbf.go)

The byte stream is a list of byte values.  Go strings enter it byte by byte;
`strings.ToUpper`, `strings.TrimSpace` and the `%-*s` padding are modelled at
the byte level as their ASCII behaviour (multi-byte UTF-8 sequences, which Go
cases and counts rune-wise, are outside the embedding). -/

/-- Little-endian 16-bit encoding (`binary.LittleEndian` of a uint16). -/
def le16 (n : Nat) : List Nat := [n % 256, n / 256 % 256]

/-- Little-endian 32-bit encoding (`binary.LittleEndian` of a uint32). -/
def le32 (n : Nat) : List Nat :=
  [n % 256, n / 256 % 256, n / 256 ^ 2 % 256, n / 256 ^ 3 % 256]

/-- Read a little-endian 16-bit value at an offset. -/
def rd16 (l : List Nat) (o : Nat) : Nat := l.getD o 0 + 256 * l.getD (o + 1) 0

/-- Read a little-endian 32-bit value at an offset. -/
def rd32 (l : List Nat) (o : Nat) : Nat :=
  l.getD o 0 + 256 * l.getD (o + 1) 0 + 256 ^ 2 * l.getD (o + 2) 0 +
    256 ^ 3 * l.getD (o + 3) 0

/-- ASCII upper-casing of one byte. -/
def upByte (b : Nat) : Nat := if 97 ≤ b ∧ b ≤ 122 then b - 32 else b

/-- ASCII upper-casing of a byte string (`strings.ToUpper`). -/
def toUpperB (s : GoStr) : GoStr := s.map upByte

/-- Whitespace bytes recognised by `strings.TrimSpace` among ASCII bytes. -/
def isWS (b : Nat) : Bool := decide (b = 32 ∨ (9 ≤ b ∧ b ≤ 13))

/-- Left trim. -/
def trimLeftB (s : GoStr) : GoStr := s.dropWhile isWS

/-- Right trim. -/
def trimRightB (s : GoStr) : GoStr := (s.reverse.dropWhile isWS).reverse

/-- Translation of `strings.TrimSpace` on ASCII bytes. -/
def trimSpaceB (s : GoStr) : GoStr := trimLeftB (trimRightB s)

/-- Field length of column `i` (dbf.go:66): the header's length capped at 254,
widened to the longest rendering in the column, clamped to [1, 254]. -/
def fieldLength (data : List (List Value)) (i : Nat) (header : GoStr) : Nat :=
  let base := min header.length 254
  let m := data.foldl
    (fun acc row => if i < row.length then max acc (render (row.getD i .vNil)).length else acc)
    base
  min (max m 1) 254

/-- The field lengths of all columns. -/
def fieldLengths (headers : List GoStr) (data : List (List Value)) : List Nat :=
  (List.range headers.length).map (fun i => fieldLength data i (headers.getD i []))

/-- The 11 name bytes of a field descriptor: the header truncated to 10 bytes
and upper-cased, copied into an all-zero 11-byte array. -/
def nameBytes (h : GoStr) : GoStr :=
  toUpperB (h.take 10) ++ List.replicate (11 - (toUpperB (h.take 10)).length) 0

/-- One 32-byte field descriptor as written by exportDBF: name, type tag 'C',
4 reserved bytes, length byte, decimal count 0, 14 reserved bytes. -/
def descBytes (data : List (List Value)) (i : Nat) (h : GoStr) : List Nat :=
  nameBytes h ++ [67] ++ List.replicate 4 0 ++
    [fieldLength data i h % 256] ++ [0] ++ List.replicate 14 0

/-- A value's bytes truncated to the field length and left-justified with
spaces (`%-*s` padding). -/
def padField (l : Nat) (s : GoStr) : GoStr :=
  s.take l ++ List.replicate (l - (s.take l).length) 32

/-- One record: the active-flag byte (space) then every column padded. -/
def recordBytes (flens : List Nat) (row : List Value) : List Nat :=
  32 :: ((List.range flens.length).map (fun i =>
    padField (flens.getD i 0)
      (if i < row.length then render (row.getD i .vNil) else []))).flatten

/-- The 32 header bytes: version 0x03, three date bytes, record count (uint32),
header size (uint16), record size (uint16), 20 reserved bytes. -/
def dbfHeaderBytes (y m d rowCount headerSize recordSize : Nat) : List Nat :=
  [3, y % 256, m % 256, d % 256] ++ le32 rowCount ++ le16 headerSize ++
    le16 recordSize ++ List.replicate 20 0

/-- Translation of `exportDBF` (dbf.go:57).  The three date bytes come from
`time.Now` and are passed in as parameters; the error return writes nothing. -/
def exportDBF (ds : Dataset) (y m d : Nat) : Except Err (List Nat) :=
  if ds.headers.length = 0 then .error .headersRequired
  else
    let flens := fieldLengths ds.headers ds.data
    let recordSize := 1 + flens.sum
    let headerSize := 32 + 32 * ds.headers.length + 1
    .ok (dbfHeaderBytes y m d ds.data.length headerSize recordSize ++
      ((List.range ds.headers.length).map
        (fun i => descBytes ds.data i (ds.headers.getD i []))).flatten ++
      [13] ++ (ds.data.map (recordBytes flens)).flatten ++ [26])

/-- Name bytes cut at the first NUL (`strings.IndexByte`). -/
def takeUntilZero (s : List Nat) : List Nat := s.takeWhile (fun b => decide (b ≠ 0))

/-- Descriptor parsing loop of importDBF: for each of `cnt` descriptors
starting at index `i`, check bounds, then keep the 11 name bytes and the
length byte (offset 16 inside the descriptor). -/
def parseDescs (data : List Nat) : Nat → Nat → Except Err (List (GoStr × Nat))
  | _, 0 => .ok []
  | i, cnt + 1 =>
    if 32 + 32 * i + 32 > data.length then .error .invalidData
    else
      let fd := (data.drop (32 + 32 * i)).take 32
      match parseDescs data (i + 1) cnt with
      | .error e => .error e
      | .ok rest => .ok ((fd.take 11, fd.getD 16 0) :: rest)

/-- Field loop of the record parser: slice each field, trim it; when a field
would run past the record the loop breaks, leaving the remaining cells nil. -/
def parseRecFields (recordData : List Nat) : List (GoStr × Nat) → Nat → List Value
  | [], _ => []
  | f :: rest, fieldOffset =>
    if fieldOffset + f.2 > recordData.length then
      List.replicate (rest.length + 1) Value.vNil
    else
      Value.vStr (trimSpaceB ((recordData.drop fieldOffset).take f.2)) ::
        parseRecFields recordData rest (fieldOffset + f.2)

/-- Record loop of importDBF: `cnt` records starting at index `i`; stop at a
truncated record, skip records flagged deleted (0x2A), parse the rest. -/
def parseRecords (data : List Nat) (fields : List (GoStr × Nat))
    (recordStart recordSize : Nat) : Nat → Nat → List (List Value)
  | _, 0 => []
  | i, cnt + 1 =>
    if recordStart + i * recordSize + recordSize > data.length then []
    else
      let recordData := (data.drop (recordStart + i * recordSize)).take recordSize
      if recordData.getD 0 0 = 42 then
        parseRecords data fields recordStart recordSize (i + 1) cnt
      else
        parseRecFields recordData fields 1 ::
          parseRecords data fields recordStart recordSize (i + 1) cnt

/-- Translation of `importDBF` (dbf.go:171).  `binary.Read` of the fixed-size
header and descriptors is byte extraction at fixed little-endian offsets.  The
`ds.Append` call inside the record loop cannot fail and is not modelled as
fallible: every parsed row has exactly `numFields` cells (`make([]any,
numFields)` padded with nil on a break), which always matches the width of the
dataset built from `numFields` headers. -/
def importDBF (data : List Nat) : Except Err Dataset :=
  if data.length < 32 then .error .invalidData
  else
    let recordCount := rd32 data 4
    let headerSize := rd16 data 8
    let recordSize := rd16 data 10
    let nf : Int := ((headerSize : Int) - 32 - 1).tdiv 32
    if nf < 0 ∨ nf > 1000 then .error .invalidData
    else
      match parseDescs data 0 nf.toNat with
      | .error e => .error e
      | .ok fields =>
        let headers := fields.map (fun f => trimSpaceB (takeUntilZero f.1))
        let rows := parseRecords data fields headerSize recordSize 0 recordCount
        .ok { newDataset headers with data := rows, tags := rows.map (fun _ => []) }

/-! ### Claim C10: the binary codec requires headers -/

/-- C10: exporting a dataset with an empty header list through the DBF codec
fails with HeadersRequired, producing no bytes (the Go function returns before
anything reaches the writer). -/
theorem exportDBF_empty_headers_fails (ds : Dataset) (y m d : Nat)
    (h : ds.headers = []) : exportDBF ds y m d = .error .headersRequired := by
  unfold exportDBF
  rw [if_pos (by simp [h])]

/-- Witness for C10 at the empty dataset. -/
theorem exportDBF_empty_headers_fails_witness :
    (newDataset []).headers = [] ∧
    exportDBF (newDataset []) 0 0 0 = .error .headersRequired :=
  ⟨rfl, exportDBF_empty_headers_fails (newDataset []) 0 0 0 rfl⟩

/-- Dataset with a single 11-byte header. -/
def cexDbfDs : Dataset := newDataset [str "LongHeader1"]

/-- C1 counterexample: a header longer than 10 bytes does not round-trip to its
upper-cased form; the encoder truncates the name to 10 significant bytes, so
the decoded header list is ["LONGHEADER"], not ["LONGHEADER1"]. -/
theorem dbf_roundtrip_cex :
    (exportDBF cexDbfDs 0 0 0).toOption.bind
      (fun bs => (importDBF bs).toOption.map Dataset.headers) =
      some [str "LONGHEADER"] ∧
    cexDbfDs.headers.map toUpperB = [str "LONGHEADER1"] ∧
    ([str "LONGHEADER"] : List GoStr) ≠ [str "LONGHEADER1"] := by
  refine ⟨by decide, by decide, by decide⟩

/-! ### Byte-stream lemmas for the round trip -/

/-- A padded field is exactly the field length long. -/
theorem padField_length (l : Nat) (s : GoStr) : (padField l s).length = l := by
  simp [padField]

/-- Name bytes are always 11 long. -/
theorem nameBytes_length (h : GoStr) : (nameBytes h).length = 11 := by
  have : (h.take 10).length ≤ 10 := by simp
  simp [nameBytes, toUpperB]

/-- Field descriptors are always 32 bytes. -/
theorem descBytes_length (data : List (List Value)) (i : Nat) (h : GoStr) :
    (descBytes data i h).length = 32 := by
  simp [descBytes, nameBytes_length]

/-- Flattening chunks of uniform length `k`. -/
theorem flatten_length_uniform {k : Nat} :
    ∀ chunks : List (List Nat), (∀ c ∈ chunks, c.length = k) →
      chunks.flatten.length = k * chunks.length := by
  intro chunks
  induction chunks with
  | nil => intro _; simp
  | cons c cs ih =>
    intro hc
    simp only [List.flatten_cons, List.length_append, List.length_cons,
      hc c (by simp), ih (fun x hx => hc x (by simp [hx]))]
    ring

/-- Records are `1 + sum of field lengths` bytes. -/
theorem recordBytes_length (flens : List Nat) (row : List Value) :
    (recordBytes flens row).length = 1 + flens.sum := by
  simp only [recordBytes, List.length_cons, List.length_flatten, List.map_map]
  have h1 : List.map (List.length ∘ fun i =>
      padField (flens.getD i 0) (if i < row.length then render (row.getD i .vNil) else []))
      (List.range flens.length) = (List.range flens.length).map (fun i => flens.getD i 0) := by
    apply List.map_congr_left
    intro i _
    simp [padField_length]
  rw [h1, map_getD_range]
  omega

/-- Dropping whole chunks of uniform length `k` from a flattened prefix. -/
theorem drop_flatten_chunks {k : Nat} (rest : List Nat) :
    ∀ (i : Nat) (chunks : List (List Nat)), (∀ c ∈ chunks, c.length = k) →
      i ≤ chunks.length →
      (chunks.flatten ++ rest).drop (k * i) = (chunks.drop i).flatten ++ rest := by
  intro i
  induction i with
  | zero => intro chunks _ _; simp
  | succ j ih =>
    intro chunks hc hlen
    cases chunks with
    | nil => simp at hlen
    | cons c cs =>
      have hck : c.length = k := hc c (by simp)
      rw [show k * (j + 1) = k + k * j by ring, ← List.drop_drop,
        List.flatten_cons, List.append_assoc, List.drop_left' hck,
        ih cs (fun x hx => hc x (by simp [hx])) (by simpa using hlen)]
      rfl

/-- Taking the head chunk from a flattened list. -/
theorem take_head_chunk {k : Nat} (c : List Nat) (cs : List (List Nat))
    (rest : List Nat) (hck : c.length = k) :
    ((c :: cs).flatten ++ rest).take k = c := by
  rw [List.flatten_cons, List.append_assoc, List.take_left' hck]

/-- Trimming ignores trailing padding spaces. -/
theorem dropWhile_ws_replicate (t : List Nat) :
    ∀ k, (List.replicate k 32 ++ t).dropWhile isWS = t.dropWhile isWS := by
  intro k
  induction k with
  | zero => simp
  | succ j ih =>
    rw [List.replicate_succ, List.cons_append, List.dropWhile_cons_of_pos (by decide)]
    exact ih

/-- `TrimSpace` of a space-padded string is the trim of the string itself. -/
theorem trimSpace_append_spaces (s : GoStr) (k : Nat) :
    trimSpaceB (s ++ List.replicate k 32) = trimSpaceB s := by
  unfold trimSpaceB trimRightB
  rw [List.reverse_append, List.reverse_replicate, dropWhile_ws_replicate]

/-- `takeUntilZero` of a NUL-free prefix followed by a NUL block. -/
theorem takeUntilZero_spec (l t : List Nat) (hl : ∀ x ∈ l, x ≠ 0) :
    takeUntilZero (l ++ 0 :: t) = l := by
  induction l with
  | nil => simp [takeUntilZero]
  | cons a as ih =>
    rw [List.cons_append]
    unfold takeUntilZero at ih ⊢
    rw [List.takeWhile_cons_of_pos (by simp [hl a (by simp)]),
      ih (fun x hx => hl x (by simp [hx]))]

/-- Upper-casing never produces a NUL from a non-NUL byte. -/
theorem upByte_ne_zero (b : Nat) (h : b ≠ 0) : upByte b ≠ 0 := by
  unfold upByte
  split <;> omega

/-- Decoding a descriptor name: for a NUL-free header of at most 10 bytes with
no surrounding whitespace once upper-cased, the name round-trips to the
upper-cased header. -/
theorem decode_nameBytes (h : GoStr) (hlen : h.length ≤ 10) (hz : 0 ∉ h)
    (htrim : trimSpaceB (toUpperB h) = toUpperB h) :
    trimSpaceB (takeUntilZero (nameBytes h)) = toUpperB h := by
  unfold nameBytes
  rw [List.take_of_length_le hlen]
  have hup : (toUpperB h).length = h.length := by simp [toUpperB]
  have hnz : ∀ x ∈ toUpperB h, x ≠ 0 := by
    intro x hx
    rcases List.mem_map.mp hx with ⟨b, hb, rfl⟩
    exact upByte_ne_zero b (fun h0 => hz (h0 ▸ hb))
  have hk : 11 - (toUpperB h).length = (10 - (toUpperB h).length) + 1 := by omega
  rw [hk, List.replicate_succ, takeUntilZero_spec (toUpperB h) _ hnz, htrim]

/-- Descriptor parsing over an export-shaped stream: a 32-byte header, the
uniform 32-byte descriptor chunks, then the rest of the stream. -/
theorem parseDescs_spec (pre : List Nat) (hpre : pre.length = 32)
    (chunks : List (List Nat)) (hc : ∀ c ∈ chunks, c.length = 32)
    (rest : List Nat) :
    ∀ (cnt i : Nat), i + cnt = chunks.length →
      parseDescs (pre ++ chunks.flatten ++ rest) i cnt =
        .ok ((chunks.drop i).map (fun c => (c.take 11, c.getD 16 0))) := by
  intro cnt
  induction cnt with
  | zero =>
    intro i hi
    rw [show i = chunks.length from by omega, List.drop_length]
    rfl
  | succ m ih =>
    intro i hi
    have hlt : i < chunks.length := by omega
    have hflat : chunks.flatten.length = 32 * chunks.length :=
      flatten_length_uniform chunks hc
    have hlen : (pre ++ chunks.flatten ++ rest).length =
        32 + 32 * chunks.length + rest.length := by
      simp [hpre, hflat]
      ring
    have hdrop : (pre ++ chunks.flatten ++ rest).drop (32 + 32 * i) =
        (chunks.drop i).flatten ++ rest := by
      rw [List.append_assoc, ← List.drop_drop, List.drop_left' hpre,
        drop_flatten_chunks rest i chunks hc (le_of_lt hlt)]
    have hgd : (chunks.getD i []).length = 32 := by
      rw [List.getD_eq_getElem chunks [] hlt]
      exact hc _ (chunks.getElem_mem hlt)
    have hchunk : ((pre ++ chunks.flatten ++ rest).drop (32 + 32 * i)).take 32 =
        chunks.getD i [] := by
      rw [hdrop, List.drop_eq_getElem_cons hlt, ← List.getD_eq_getElem chunks [] hlt]
      exact take_head_chunk _ _ _ hgd
    unfold parseDescs
    rw [if_neg (by omega)]
    simp only [hchunk, ih (i + 1) (by omega)]
    rw [List.drop_eq_getElem_cons hlt, List.map_cons,
      ← List.getD_eq_getElem chunks [] hlt]

/-- The field loop decodes each padded value back to its trimmed bytes, as
long as every value fits in its declared field length and the record is the
flag byte followed by exactly the padded fields. -/
theorem parseRecFields_spec :
    ∀ (fields : List (GoStr × Nat)) (vals : List GoStr), fields.length = vals.length →
      (∀ p ∈ fields.zip vals, p.2.length ≤ p.1.2) →
      ∀ (recordData : List Nat) (off : Nat),
        recordData.length = off + (fields.map Prod.snd).sum →
        recordData.drop off = ((fields.zip vals).map (fun p => padField p.1.2 p.2)).flatten →
        parseRecFields recordData fields off =
          vals.map (fun s => Value.vStr (trimSpaceB s)) := by
  intro fields
  induction fields with
  | nil =>
    intro vals hlen _ _ _ _ _
    rw [(List.length_eq_zero.mp hlen.symm : vals = [])]
    rfl
  | cons f fr ih =>
    intro vals hlen hfit recordData off hrdlen hdrop
    cases vals with
    | nil => simp at hlen
    | cons v vr =>
      have hfitv : v.length ≤ f.2 := hfit (f, v) (by simp)
      have hpadlen : (padField f.2 v).length = f.2 := padField_length _ _
      have hdropoff : recordData.drop off =
          padField f.2 v ++ ((fr.zip vr).map (fun p => padField p.1.2 p.2)).flatten := by
        rw [hdrop]
        rfl
      unfold parseRecFields
      rw [if_neg (by simp at hrdlen; omega)]
      have hfield : (recordData.drop off).take f.2 = padField f.2 v := by
        rw [hdropoff, List.take_left' hpadlen]
      have htrim : trimSpaceB ((recordData.drop off).take f.2) = trimSpaceB v := by
        rw [hfield]
        unfold padField
        rw [List.take_of_length_le hfitv, trimSpace_append_spaces]
      rw [htrim, ih vr (by simpa using hlen) (fun p hp => hfit p (by simp [hp]))
        recordData (off + f.2) (by simp at hrdlen ⊢; omega) ?_]
      · rfl
      · rw [← List.drop_drop, hdropoff, List.drop_left' hpadlen]

/-- Record parsing over an export-shaped stream: a prefix of `recordStart`
bytes, uniform `recordSize`-byte record chunks none of which carries the
deleted flag, then the EOF byte. -/
theorem parseRecords_spec (pre : List Nat) (rs : Nat) (fields : List (GoStr × Nat))
    (chunks : List (List Nat)) (hc : ∀ c ∈ chunks, c.length = rs)
    (hflag : ∀ c ∈ chunks, c.getD 0 0 ≠ 42) :
    ∀ (cnt i : Nat), i + cnt = chunks.length →
      parseRecords (pre ++ chunks.flatten ++ [26]) fields pre.length rs i cnt =
        (chunks.drop i).map (fun c => parseRecFields c fields 1) := by
  intro cnt
  induction cnt with
  | zero =>
    intro i hi
    rw [show i = chunks.length from by omega, List.drop_length]
    rfl
  | succ m ih =>
    intro i hi
    have hlt : i < chunks.length := by omega
    have hflat : chunks.flatten.length = rs * chunks.length :=
      flatten_length_uniform chunks hc
    have hlen : (pre ++ chunks.flatten ++ [26]).length =
        pre.length + rs * chunks.length + 1 := by
      simp [hflat]
      ring
    have hnogt : ¬ (pre.length + i * rs + rs > (pre ++ chunks.flatten ++ [26]).length) := by
      rw [hlen]
      have h2 : (i + 1) * rs ≤ chunks.length * rs :=
        Nat.mul_le_mul_right rs (Nat.succ_le_of_lt hlt)
      have h3 : i * rs + rs = (i + 1) * rs := by ring
      have h4 : chunks.length * rs = rs * chunks.length := by ring
      simp only [gt_iff_lt, not_lt]
      linarith
    have hdrop : (pre ++ chunks.flatten ++ [26]).drop (pre.length + i * rs) =
        (chunks.drop i).flatten ++ [26] := by
      rw [show pre.length + i * rs = pre.length + rs * i by ring, List.append_assoc,
        ← List.drop_drop, List.drop_left,
        drop_flatten_chunks [26] i chunks hc (le_of_lt hlt)]
    have hgd : (chunks.getD i []).length = rs := by
      rw [List.getD_eq_getElem chunks [] hlt]
      exact hc _ (chunks.getElem_mem hlt)
    have hchunk : ((pre ++ chunks.flatten ++ [26]).drop (pre.length + i * rs)).take rs =
        chunks.getD i [] := by
      rw [hdrop, List.drop_eq_getElem_cons hlt, ← List.getD_eq_getElem chunks [] hlt]
      exact take_head_chunk _ _ _ hgd
    have hfl : (chunks.getD i []).getD 0 0 ≠ 42 := by
      rw [List.getD_eq_getElem chunks [] hlt]
      exact hflag _ (chunks.getElem_mem hlt)
    unfold parseRecords
    rw [if_neg hnogt]
    simp only [hchunk]
    rw [if_neg hfl, ih (i + 1) (by omega), List.drop_eq_getElem_cons hlt, List.map_cons,
      ← List.getD_eq_getElem chunks [] hlt]

/-- The field-length scan never drops below its starting value. -/
theorem fieldScan_ge_start (i : Nat) :
    ∀ (data : List (List Value)) (acc : Nat),
      acc ≤ data.foldl (fun acc row =>
        if i < row.length then max acc (render (row.getD i .vNil)).length else acc) acc := by
  intro data
  induction data with
  | nil => intro acc; exact le_refl acc
  | cons r t ih =>
    intro acc
    refine le_trans ?_ (ih _)
    dsimp only
    split
    · exact Nat.le_max_left _ _
    · exact le_refl acc

/-- The field-length scan stays within 254 when every rendering does. -/
theorem fieldScan_le (i : Nat) :
    ∀ (data : List (List Value)) (acc : Nat), acc ≤ 254 →
      (∀ r ∈ data, ∀ v ∈ r, (render v).length ≤ 254) →
      data.foldl (fun acc row =>
        if i < row.length then max acc (render (row.getD i .vNil)).length else acc) acc ≤ 254 := by
  intro data
  induction data with
  | nil => intro acc h _; exact h
  | cons r t ih =>
    intro acc hacc hall
    refine ih _ ?_ (fun x hx => hall x (by simp [hx]))
    dsimp only
    split
    next hi =>
      exact max_le hacc (hall r (by simp) _ (getD_mem_of_lt r .vNil i hi))
    next => exact hacc

/-- Every rendering in the column is bounded by the scan's result. -/
theorem render_le_fieldScan (i : Nat) :
    ∀ (data : List (List Value)) (acc : Nat) (r : List Value), r ∈ data → i < r.length →
      (render (r.getD i .vNil)).length ≤ data.foldl (fun acc row =>
        if i < row.length then max acc (render (row.getD i .vNil)).length else acc) acc := by
  intro data
  induction data with
  | nil => intro acc r hr; exact absurd hr (by simp)
  | cons c t ih =>
    intro acc r hr hi
    rcases List.mem_cons.mp hr with rfl | hr2
    · refine le_trans ?_ (fieldScan_ge_start i t _)
      dsimp only
      rw [if_pos hi]
      exact Nat.le_max_right _ _
    · exact ih _ r hr2 hi

/-- Field lengths lie in [1, 254]. -/
theorem fieldLength_bounds (data : List (List Value)) (i : Nat) (h : GoStr) :
    1 ≤ fieldLength data i h ∧ fieldLength data i h ≤ 254 := by
  simp only [fieldLength]
  omega

/-- Every rendering in a column fits its field length when all renderings are
at most 254 bytes. -/
theorem render_le_fieldLength (data : List (List Value)) (i : Nat) (h : GoStr)
    (hall : ∀ r ∈ data, ∀ v ∈ r, (render v).length ≤ 254)
    (r : List Value) (hr : r ∈ data) (hi : i < r.length) :
    (render (r.getD i .vNil)).length ≤ fieldLength data i h := by
  have h1 := render_le_fieldScan i data (min h.length 254) r hr hi
  have h2 := fieldScan_le i data (min h.length 254) (by omega) hall
  simp only [fieldLength]
  omega

/-- The header block is 32 bytes. -/
theorem dbfHeaderBytes_length (y m d rc hs rs : Nat) :
    (dbfHeaderBytes y m d rc hs rs).length = 32 := rfl

/-- Reading back the three little-endian quantities of the header block. -/
theorem dbfHeader_reads (y m d rc hs rs : Nat) (rest : List Nat) :
    rd32 (dbfHeaderBytes y m d rc hs rs ++ rest) 4 = rc % 2 ^ 32 ∧
    rd16 (dbfHeaderBytes y m d rc hs rs ++ rest) 8 = hs % 2 ^ 16 ∧
    rd16 (dbfHeaderBytes y m d rc hs rs ++ rest) 10 = rs % 2 ^ 16 := by
  refine ⟨?_, ?_, ?_⟩
  · have h : rd32 (dbfHeaderBytes y m d rc hs rs ++ rest) 4 =
        rc % 256 + 256 * (rc / 256 % 256) + 256 ^ 2 * (rc / 256 ^ 2 % 256) +
          256 ^ 3 * (rc / 256 ^ 3 % 256) := rfl
    rw [h]
    omega
  · have h : rd16 (dbfHeaderBytes y m d rc hs rs ++ rest) 8 =
        hs % 256 + 256 * (hs / 256 % 256) := rfl
    rw [h]
    omega
  · have h : rd16 (dbfHeaderBytes y m d rc hs rs ++ rest) 10 =
        rs % 256 + 256 * (rs / 256 % 256) := rfl
    rw [h]
    omega

/-- The descriptor-count computation of importDBF inverts the header-size
formula of exportDBF. -/
theorem numFields_eq (n : Nat) :
    (((32 + 32 * n + 1 : Nat) : Int) - 32 - 1).tdiv 32 = n := by
  have h : ((32 + 32 * n + 1 : Nat) : Int) - 32 - 1 = 32 * (n : Int) := by
    push_cast
    ring
  rw [h, Int.mul_tdiv_cancel_left _ (by norm_num)]

/-- Reading back every position of a list under a function. -/
theorem map_range_getD {α β : Type} (l : List α) (d : α) (F : α → β) :
    (List.range l.length).map (fun i => F (l.getD i d)) = l.map F := by
  rw [show (fun i => F (l.getD i d)) = F ∘ (fun i => l.getD i d) from rfl,
    ← List.map_map, map_getD_range]

/-- A field descriptor decomposes into its name bytes and its length byte. -/
theorem descBytes_fields (data : List (List Value)) (i : Nat) (h : GoStr) :
    (descBytes data i h).take 11 = nameBytes h ∧
    (descBytes data i h).getD 16 0 = fieldLength data i h := by
  constructor
  · unfold descBytes
    simp only [List.append_assoc]
    rw [List.take_left' (nameBytes_length h)]
  · unfold descBytes
    simp only [List.append_assoc]
    rw [List.getD_append_right _ _ _ _ (by rw [nameBytes_length]; omega), nameBytes_length]
    have h5 : (16 : Nat) - 11 = 5 := rfl
    rw [h5]
    have hval : ([67] ++ (List.replicate 4 0 ++ ([fieldLength data i h % 256] ++
        ([0] ++ List.replicate 14 0)))).getD 5 0 = fieldLength data i h % 256 := rfl
    rw [hval]
    have hb := (fieldLength_bounds data i h).2
    exact Nat.mod_eq_of_lt (by omega)

/-- Position lookup inside the field-length table. -/
theorem fieldLengths_getD (headers : List GoStr) (data : List (List Value))
    (i : Nat) (hi : i < headers.length) :
    (fieldLengths headers data).getD i 0 = fieldLength data i (headers.getD i []) := by
  unfold fieldLengths
  rw [List.getD_eq_getElem _ _ (by simpa using hi), List.getElem_map, List.getElem_range,
    List.getD_eq_getElem headers [] hi]

/-- The field descriptors (name bytes and field length) of an exported
dataset, as importDBF recovers them. -/
def specFields (ds : Dataset) : List (GoStr × Nat) :=
  (List.range ds.headers.length).map
    (fun i => (nameBytes (ds.headers.getD i []), fieldLength ds.data i (ds.headers.getD i [])))

/-- Decoded form of the rows: every cell becomes the trimmed rendering. -/
def decodedRows (ds : Dataset) : List (List Value) :=
  ds.data.map (fun r => r.map (fun v => Value.vStr (trimSpaceB (render v))))

/-- One record of an exported dataset decodes to the trimmed renderings. -/
theorem decode_record (ds : Dataset) (row : List Value) (hrowmem : row ∈ ds.data)
    (hrlen : row.length = ds.headers.length)
    (hrender : ∀ r ∈ ds.data, ∀ v ∈ r, (render v).length ≤ 254) :
    parseRecFields (recordBytes (fieldLengths ds.headers ds.data) row) (specFields ds) 1 =
      row.map (fun v => Value.vStr (trimSpaceB (render v))) := by
  have hsnd : (specFields ds).map Prod.snd = fieldLengths ds.headers ds.data := by
    simp only [specFields, List.map_map]
    rfl
  have hlen : (specFields ds).length = (row.map render).length := by
    simp [specFields, hrlen]
  have hfit : ∀ p ∈ (specFields ds).zip (row.map render), p.2.length ≤ p.1.2 := by
    intro p hp
    obtain ⟨k, hk, rfl⟩ := List.getElem_of_mem hp
    have hkr : k < row.length := by
      simp [specFields, hrlen] at hk
      omega
    simp only [List.getElem_zip, List.getElem_map, specFields, List.getElem_range]
    rw [← List.getD_eq_getElem row .vNil hkr]
    exact render_le_fieldLength ds.data k _ hrender row hrowmem hkr
  have hpay : ((specFields ds).zip (row.map render)).map (fun p => padField p.1.2 p.2) =
      (List.range (fieldLengths ds.headers ds.data).length).map
        (fun i => padField ((fieldLengths ds.headers ds.data).getD i 0)
          (if i < row.length then render (row.getD i .vNil) else [])) := by
    apply List.ext_getElem
    · simp [specFields, fieldLengths, hrlen]
    · intro k h1 h2
      have hkn : k < ds.headers.length := by
        simp [specFields, hrlen] at h1
        omega
      have hkr : k < row.length := by omega
      simp only [List.getElem_map, List.getElem_zip, specFields, List.getElem_range]
      rw [if_pos hkr, fieldLengths_getD _ _ _ hkn, List.getD_eq_getElem row .vNil hkr]
  have hdrop : (recordBytes (fieldLengths ds.headers ds.data) row).drop 1 =
      (((specFields ds).zip (row.map render)).map (fun p => padField p.1.2 p.2)).flatten := by
    rw [hpay]
    rfl
  have hrdlen : (recordBytes (fieldLengths ds.headers ds.data) row).length =
      1 + ((specFields ds).map Prod.snd).sum := by
    rw [hsnd, recordBytes_length]
  rw [parseRecFields_spec (specFields ds) (row.map render) hlen hfit _ 1 hrdlen hdrop,
    List.map_map]
  rfl

/-- C1 amended: the Binary Table Codec round-trips under the conditions the
encoding actually preserves: headers at most 10 NUL-free bytes that are
unchanged by trimming once upper-cased, at most 1000 columns, rows matching
the header count, cell renderings of at most 254 bytes, a record size that
fits in 16 bits and a row count that fits in 32 bits.  Decoding then yields
the same row count, the upper-cased headers, and every cell as the trimmed
canonical text rendering of the original value. -/
theorem dbf_roundtrip (ds : Dataset) (y m d : Nat)
    (hne : ds.headers ≠ [])
    (hcols : ds.headers.length ≤ 1000)
    (hhead : ∀ h ∈ ds.headers, h.length ≤ 10 ∧ 0 ∉ h ∧
      trimSpaceB (toUpperB h) = toUpperB h)
    (hrows : ∀ r ∈ ds.data, r.length = ds.headers.length)
    (hrender : ∀ r ∈ ds.data, ∀ v ∈ r, (render v).length ≤ 254)
    (hrs : 1 + (fieldLengths ds.headers ds.data).sum ≤ 65535)
    (hrc : ds.data.length < 2 ^ 32) :
    ∃ bytes out, exportDBF ds y m d = .ok bytes ∧ importDBF bytes = .ok out ∧
      out.headers = ds.headers.map toUpperB ∧
      out.data = decodedRows ds ∧
      out.data.length = ds.data.length := by
  have hn0 : ¬ ds.headers.length = 0 := fun h => hne (List.length_eq_zero.mp h)
  refine ⟨dbfHeaderBytes y m d ds.data.length (32 + 32 * ds.headers.length + 1)
      (1 + (fieldLengths ds.headers ds.data).sum) ++
    ((List.range ds.headers.length).map
      (fun i => descBytes ds.data i (ds.headers.getD i []))).flatten ++
    [13] ++ (ds.data.map (recordBytes (fieldLengths ds.headers ds.data))).flatten ++ [26],
    { newDataset (ds.headers.map toUpperB) with
      data := decodedRows ds,
      tags := (decodedRows ds).map (fun _ => []) },
    ?_, ?_, rfl, rfl, by simp [decodedRows]⟩
  · unfold exportDBF
    rw [if_neg hn0]
  · set B := dbfHeaderBytes y m d ds.data.length (32 + 32 * ds.headers.length + 1)
        (1 + (fieldLengths ds.headers ds.data).sum) ++
      ((List.range ds.headers.length).map
        (fun i => descBytes ds.data i (ds.headers.getD i []))).flatten ++
      [13] ++ (ds.data.map (recordBytes (fieldLengths ds.headers ds.data))).flatten ++ [26]
      with hB
    have hdesclen : ∀ c ∈ (List.range ds.headers.length).map
        (fun i => descBytes ds.data i (ds.headers.getD i [])), c.length = 32 := by
      intro c hc
      rcases List.mem_map.mp hc with ⟨i, _, rfl⟩
      exact descBytes_length _ _ _
    have hreclen : ∀ c ∈ ds.data.map (recordBytes (fieldLengths ds.headers ds.data)),
        c.length = 1 + (fieldLengths ds.headers ds.data).sum := by
      intro c hc
      rcases List.mem_map.mp hc with ⟨row, _, rfl⟩
      exact recordBytes_length _ _
    have hflag : ∀ c ∈ ds.data.map (recordBytes (fieldLengths ds.headers ds.data)),
        c.getD 0 0 ≠ 42 := by
      intro c hc
      rcases List.mem_map.mp hc with ⟨row, _, rfl⟩
      simp [recordBytes]
    have hDlen : ((List.range ds.headers.length).map
        (fun i => descBytes ds.data i (ds.headers.getD i []))).flatten.length =
        32 * ds.headers.length := by
      rw [flatten_length_uniform _ hdesclen]
      simp
    have hRlen : (ds.data.map (recordBytes (fieldLengths ds.headers ds.data))).flatten.length =
        (1 + (fieldLengths ds.headers ds.data).sum) * ds.data.length := by
      rw [flatten_length_uniform _ hreclen]
      simp
    have hBlen : B.length = 32 + 32 * ds.headers.length + 1 +
        (1 + (fieldLengths ds.headers ds.data).sum) * ds.data.length + 1 := by
      rw [hB]
      simp only [List.length_append, dbfHeaderBytes_length, hDlen, hRlen,
        List.length_cons, List.length_nil]
    have hrd32 : rd32 B 4 = ds.data.length := by
      rw [hB]
      simp only [List.append_assoc]
      rw [(dbfHeader_reads y m d _ _ _ _).1]
      exact Nat.mod_eq_of_lt hrc
    have hrd16hs : rd16 B 8 = 32 + 32 * ds.headers.length + 1 := by
      rw [hB]
      simp only [List.append_assoc]
      rw [(dbfHeader_reads y m d _ _ _ _).2.1]
      exact Nat.mod_eq_of_lt (by omega)
    have hrd16rs : rd16 B 10 = 1 + (fieldLengths ds.headers ds.data).sum := by
      rw [hB]
      simp only [List.append_assoc]
      rw [(dbfHeader_reads y m d _ _ _ _).2.2]
      exact Nat.mod_eq_of_lt (by omega)
    have hdescs : parseDescs B 0 ds.headers.length =
        .ok (((List.range ds.headers.length).map
          (fun i => descBytes ds.data i (ds.headers.getD i []))).map
            (fun c => (c.take 11, c.getD 16 0))) := by
      have hspec := parseDescs_spec
        (dbfHeaderBytes y m d ds.data.length (32 + 32 * ds.headers.length + 1)
          (1 + (fieldLengths ds.headers ds.data).sum))
        (dbfHeaderBytes_length _ _ _ _ _ _)
        ((List.range ds.headers.length).map
          (fun i => descBytes ds.data i (ds.headers.getD i [])))
        hdesclen
        ([13] ++ (ds.data.map (recordBytes (fieldLengths ds.headers ds.data))).flatten ++ [26])
        ds.headers.length 0 (by simp)
      rw [List.drop_zero] at hspec
      rw [hB]
      simp only [List.append_assoc] at hspec ⊢
      exact hspec
    have hfields : ((List.range ds.headers.length).map
        (fun i => descBytes ds.data i (ds.headers.getD i []))).map
          (fun c => (c.take 11, c.getD 16 0)) = specFields ds := by
      rw [List.map_map]
      apply List.map_congr_left
      intro i _
      simp only [Function.comp_apply]
      rw [(descBytes_fields ds.data i _).1, (descBytes_fields ds.data i _).2]
    have hheaders : (specFields ds).map (fun f => trimSpaceB (takeUntilZero f.1)) =
        ds.headers.map toUpperB := by
      unfold specFields
      rw [List.map_map]
      have hcongr : ∀ i ∈ List.range ds.headers.length,
          ((fun f : GoStr × Nat => trimSpaceB (takeUntilZero f.1)) ∘
            (fun i => (nameBytes (ds.headers.getD i []),
              fieldLength ds.data i (ds.headers.getD i [])))) i =
            toUpperB (ds.headers.getD i []) := by
        intro i hi
        have hm : ds.headers.getD i [] ∈ ds.headers :=
          getD_mem_of_lt _ _ _ (List.mem_range.mp hi)
        obtain ⟨h1, h2, h3⟩ := hhead _ hm
        exact decode_nameBytes _ h1 h2 h3
      rw [List.map_congr_left hcongr, map_range_getD]
    have hprelen : (dbfHeaderBytes y m d ds.data.length (32 + 32 * ds.headers.length + 1)
        (1 + (fieldLengths ds.headers ds.data).sum) ++
      ((List.range ds.headers.length).map
        (fun i => descBytes ds.data i (ds.headers.getD i []))).flatten ++ [13]).length =
        32 + 32 * ds.headers.length + 1 := by
      simp only [List.length_append, dbfHeaderBytes_length, hDlen, List.length_cons,
        List.length_nil]
    have hrecs : parseRecords B (specFields ds) (32 + 32 * ds.headers.length + 1)
        (1 + (fieldLengths ds.headers ds.data).sum) 0 ds.data.length =
        (ds.data.map (recordBytes (fieldLengths ds.headers ds.data))).map
          (fun c => parseRecFields c (specFields ds) 1) := by
      have hspec := parseRecords_spec
        (dbfHeaderBytes y m d ds.data.length (32 + 32 * ds.headers.length + 1)
          (1 + (fieldLengths ds.headers ds.data).sum) ++
          ((List.range ds.headers.length).map
            (fun i => descBytes ds.data i (ds.headers.getD i []))).flatten ++ [13])
        (1 + (fieldLengths ds.headers ds.data).sum)
        (specFields ds)
        (ds.data.map (recordBytes (fieldLengths ds.headers ds.data)))
        hreclen hflag ds.data.length 0 (by simp)
      rw [List.drop_zero, hprelen] at hspec
      rw [hB]
      simp only [List.append_assoc] at hspec ⊢
      exact hspec
    have hrowsall : (ds.data.map (recordBytes (fieldLengths ds.headers ds.data))).map
        (fun c => parseRecFields c (specFields ds) 1) = decodedRows ds := by
      rw [List.map_map]
      apply List.map_congr_left
      intro row hrowmem
      simp only [Function.comp_apply]
      exact decode_record ds row hrowmem (hrows row hrowmem) hrender
    unfold importDBF
    rw [if_neg (by rw [hBlen]; omega)]
    simp only [hrd32, hrd16hs, hrd16rs, numFields_eq]
    rw [if_neg (by omega)]
    simp only [Int.toNat_natCast, hdescs, hfields, hrecs, hrowsall, hheaders]

/-- Concrete Name/Age dataset with one text row. -/
def dbfWitnessDs : Dataset :=
  { newDataset [str "Name", str "Age"] with
    data := [[.vStr (str "Alice"), .vStr (str "30")]],
    tags := [[]] }

/-- Witness for C1: headers ["Name","Age"] with the row ["Alice","30"]
round-trip to headers ["NAME","AGE"] and the row [["Alice","30"]]. -/
theorem dbf_roundtrip_witness :
    dbfWitnessDs.headers ≠ [] ∧
    (∃ bytes out, exportDBF dbfWitnessDs 1 2 3 = .ok bytes ∧ importDBF bytes = .ok out ∧
      out.headers = dbfWitnessDs.headers.map toUpperB ∧
      out.data = decodedRows dbfWitnessDs ∧
      out.data.length = dbfWitnessDs.data.length) ∧
    dbfWitnessDs.headers.map toUpperB = [str "NAME", str "AGE"] ∧
    decodedRows dbfWitnessDs = [[.vStr (str "Alice"), .vStr (str "30")]] := by
  refine ⟨by decide,
    dbf_roundtrip dbfWitnessDs 1 2 3 (by decide) (by decide) (by decide) (by decide)
      (by decide) (by decide) (by decide),
    by decide, by decide⟩

/-! ### The Structured-Archive Codec (ods.go)

`exportODSSheets` builds one `odsTable` record per dataset and serialises the
document with the Go stdlib `encoding/xml` inside a ZIP container; `ImportODS`
opens the container and parses `content.xml` back into `simpleTable` records.
The container and XML layers are external library collaborators; they are
modelled as the structural correspondence `xmlCell`/`xmlTable` (an exported
attribute or paragraph reads back as the same string, an absent paragraph as
the empty string).  The repository's own logic — which cells are written with
which value-type/value/text, and how a parsed table becomes a Dataset — is
translated below. -/

/-- Cell record as exportODSSheets writes it. -/
structure OdsCell where
  valueType : GoStr
  value : GoStr
  styleName : GoStr
  text : Option GoStr
  deriving DecidableEq

/-- Table element as exportODSSheets writes it. -/
structure OdsTable where
  name : GoStr
  rows : List (List OdsCell)
  deriving DecidableEq

/-- The cell written for one data value (the type switch of ods.go:180):
integers and floats carry value-type "float", booleans "boolean", everything
else is a plain string cell whose only content is the rendered text. -/
def odsDataCell (v : Value) : OdsCell :=
  match v with
  | .vInt _ | .vInt64 _ =>
    { valueType := str "float", value := render v, styleName := [], text := some (render v) }
  | .vBool _ =>
    { valueType := str "boolean", value := render v, styleName := [], text := some (render v) }
  | .vStr _ | .vNil =>
    { valueType := str "string", value := [], styleName := [], text := some (render v) }

/-- The bold string cell written for one header. -/
def odsHeaderCell (h : GoStr) : OdsCell :=
  { valueType := str "string", value := [], styleName := str "bold", text := some h }

/-- The table element written for one dataset: its title (or "Sheet" when the
title is empty), a header row when headers are non-empty, one row per data
row. -/
def exportODSTable (ds : Dataset) : OdsTable :=
  { name := if ds.title = [] then str "Sheet" else ds.title,
    rows := (if ds.headers.length > 0 then [ds.headers.map odsHeaderCell] else []) ++
      ds.data.map (fun row => row.map odsDataCell) }

/-- Translation of the table-building loop of `exportODSSheets` (ods.go:150). -/
def exportODSTables (sheets : List Dataset) : List OdsTable := sheets.map exportODSTable

/-- Cell record as ImportODS parses it back out of content.xml. -/
structure SimpleCell where
  valueType : GoStr
  value : GoStr
  text : GoStr
  deriving DecidableEq

/-- Table record as ImportODS parses it. -/
structure SimpleTable where
  name : GoStr
  rows : List (List SimpleCell)
  deriving DecidableEq

/-- The stdlib XML round trip on one cell: attributes come back verbatim, an
absent paragraph reads as the empty string. -/
def xmlCell (c : OdsCell) : SimpleCell :=
  { valueType := c.valueType, value := c.value, text := c.text.getD [] }

/-- The stdlib XML round trip on one table element. -/
def xmlTable (t : OdsTable) : SimpleTable :=
  { name := t.name, rows := t.rows.map (fun r => r.map xmlCell) }

/-- Cell decoding of ImportODS (ods.go:305, 324): the trimmed paragraph text,
falling back to the value attribute when the trim is empty. -/
def odsCellText (c : SimpleCell) : GoStr :=
  if trimSpaceB c.text = [] then c.value else trimSpaceB c.text

/-- Sheet selection of ImportODS (ods.go:286): the first table whose name
matches, an empty requested name matching the first table. -/
def findTable (tables : List SimpleTable) (sheetName : GoStr) : Option SimpleTable :=
  tables.find? (fun t => decide (sheetName = [] ∨ t.name = sheetName))

/-- Conversion of a parsed table to a Dataset (ods.go:298): no rows gives the
empty untitled dataset; otherwise the first row becomes the headers, and every
later row is sized by the header count (missing cells stay nil, extra cells
are dropped).  The `ds.Append` inside cannot fail — every built row has
exactly the width of the headers — so it is not modelled as fallible. -/
def tableToDataset (t : SimpleTable) : Dataset :=
  match t.rows with
  | [] => newDataset []
  | r0 :: rest =>
    let headers := r0.map odsCellText
    { newDataset headers with
      title := t.name,
      data := rest.map (fun r => (List.range headers.length).map
        (fun j => if j < r.length then
          Value.vStr (odsCellText (r.getD j ⟨[], [], []⟩)) else Value.vNil)),
      tags := rest.map (fun _ => []) }

/-- Translation of the structural part of `ImportODS`: pick the table by name
and convert it (a `none` result is the "sheet not found" error). -/
def importODSModel (tables : List SimpleTable) (sheetName : GoStr) : Option Dataset :=
  (findTable tables sheetName).map tableToDataset

/-- A data cell survives the round trip as its rendering, as long as the
rendering is unchanged by trimming. -/
theorem odsCell_roundtrip (v : Value) (hv : trimSpaceB (render v) = render v) :
    odsCellText (xmlCell (odsDataCell v)) = render v := by
  cases v <;>
    · show odsCellText _ = _
      unfold odsCellText xmlCell odsDataCell
      simp only [Option.getD_some]
      rw [hv]
      split
      next h => simp [h]
      next h => rfl

/-- A header cell survives the round trip, as long as the header is unchanged
by trimming. -/
theorem odsHeader_roundtrip (h : GoStr) (hh : trimSpaceB h = h) :
    odsCellText (xmlCell (odsHeaderCell h)) = h := by
  unfold odsCellText xmlCell odsHeaderCell
  simp only [Option.getD_some]
  rw [hh]
  split
  next h2 => simp [h2]
  next h2 => rfl

/-- With pairwise-distinct non-empty titles, looking up a member dataset's
title finds exactly its exported table. -/
theorem find_export_table :
    ∀ (sheets : List Dataset) (ds : Dataset), ds ∈ sheets →
      (∀ e ∈ sheets, e.title ≠ []) →
      sheets.Pairwise (fun a b => a.title ≠ b.title) →
      findTable ((exportODSTables sheets).map xmlTable) ds.title =
        some (xmlTable (exportODSTable ds)) := by
  intro sheets
  induction sheets with
  | nil => intro ds hmem; exact absurd hmem (by simp)
  | cons e rest ih =>
    intro ds hmem htitles hdist
    have hds : ds.title ≠ [] := htitles ds hmem
    have hename : (xmlTable (exportODSTable e)).name = e.title := by
      simp [xmlTable, exportODSTable, htitles e (by simp)]
    unfold findTable
    simp only [exportODSTables, List.map_cons, List.find?_cons]
    by_cases he : e.title = ds.title
    · have hde : ds = e := by
        rcases List.mem_cons.mp hmem with rfl | hmem2
        · rfl
        · exact absurd he ((List.pairwise_cons.mp hdist).1 ds hmem2)
      have hdec : decide (ds.title = [] ∨ (xmlTable (exportODSTable e)).name = ds.title) =
          true := by
        rw [hename, he]
        simp
      rw [hdec, hde]
    · have hdec : decide (ds.title = [] ∨ (xmlTable (exportODSTable e)).name = ds.title) =
          false := by
        rw [hename]
        simp [hds, he]
      rw [hdec]
      have hdmem : ds ∈ rest := by
        rcases List.mem_cons.mp hmem with rfl | hmem2
        · exact absurd rfl he
        · exact hmem2
      have := ih ds hdmem (fun x hx => htitles x (by simp [hx]))
        (List.pairwise_cons.mp hdist).2
      unfold findTable exportODSTables at this
      exact this

/-- C5 amended: exporting a collection of datasets (each with non-empty
headers, pairwise-distinct non-empty titles, rows matching the header count,
and headers/renderings unchanged by trimming) through the Structured-Archive
codec and decoding any member by its title yields that member's header list,
row count, title, and every cell as the text rendering of the source cell. -/
theorem ods_roundtrip (sheets : List Dataset) (ds : Dataset) (hmem : ds ∈ sheets)
    (htitles : ∀ e ∈ sheets, e.title ≠ [])
    (hdistinct : sheets.Pairwise (fun a b => a.title ≠ b.title))
    (hheaders : ds.headers ≠ [])
    (htrimh : ∀ h ∈ ds.headers, trimSpaceB h = h)
    (hrows : ∀ r ∈ ds.data, r.length = ds.headers.length)
    (htrimv : ∀ r ∈ ds.data, ∀ v ∈ r, trimSpaceB (render v) = render v) :
    ∃ out, importODSModel ((exportODSTables sheets).map xmlTable) ds.title = some out ∧
      out.headers = ds.headers ∧
      out.data = ds.data.map (fun r => r.map (fun v => Value.vStr (render v))) ∧
      out.data.length = ds.data.length ∧
      out.title = ds.title := by
  have hfind := find_export_table sheets ds hmem htitles hdistinct
  have hhl : ds.headers.length > 0 := List.length_pos.mpr hheaders
  refine ⟨tableToDataset (xmlTable (exportODSTable ds)), ?_, ?_⟩
  · unfold importODSModel
    rw [hfind]
    rfl
  have hrows0 : (xmlTable (exportODSTable ds)).rows =
      (ds.headers.map (fun h => xmlCell (odsHeaderCell h))) ::
        ds.data.map (fun row => row.map (fun v => xmlCell (odsDataCell v))) := by
    simp [xmlTable, exportODSTable, if_pos hhl, List.map_map]
  have hname : (xmlTable (exportODSTable ds)).name = ds.title := by
    simp [xmlTable, exportODSTable, htitles ds hmem]
  have hhdec : (ds.headers.map (fun h => xmlCell (odsHeaderCell h))).map odsCellText =
      ds.headers := by
    rw [List.map_map]
    have := List.map_congr_left (l := ds.headers)
      (f := odsCellText ∘ fun h => xmlCell (odsHeaderCell h)) (g := id)
      (fun h hh => odsHeader_roundtrip h (htrimh h hh))
    rw [this, List.map_id]
  have hkey : tableToDataset (xmlTable (exportODSTable ds)) =
      { newDataset ((ds.headers.map (fun h => xmlCell (odsHeaderCell h))).map odsCellText) with
        title := (xmlTable (exportODSTable ds)).name,
        data := (ds.data.map (fun row => row.map (fun v => xmlCell (odsDataCell v)))).map
          (fun r => (List.range ((ds.headers.map
            (fun h => xmlCell (odsHeaderCell h))).map odsCellText).length).map
              (fun j => if j < r.length then
                Value.vStr (odsCellText (r.getD j ⟨[], [], []⟩)) else Value.vNil)),
        tags := (ds.data.map (fun row => row.map (fun v => xmlCell (odsDataCell v)))).map
          (fun _ => []) } := by
    unfold tableToDataset
    rw [hrows0]
  have hdata : (ds.data.map (fun row => row.map (fun v => xmlCell (odsDataCell v)))).map
      (fun r => (List.range ((ds.headers.map
        (fun h => xmlCell (odsHeaderCell h))).map odsCellText).length).map
          (fun j => if j < r.length then
            Value.vStr (odsCellText (r.getD j ⟨[], [], []⟩)) else Value.vNil)) =
      ds.data.map (fun r => r.map (fun v => Value.vStr (render v))) := by
    rw [List.map_map]
    apply List.map_congr_left
    intro row hrow
    simp only [Function.comp_apply]
    have hrl : row.length = ds.headers.length := hrows row hrow
    apply List.ext_getElem
    · simp [hrl]
    · intro j h1 h2
      have hjh : j < ds.headers.length := by simpa using h1
      have hjr : j < row.length := by omega
      simp only [List.getElem_map, List.getElem_range]
      rw [if_pos (by simp [hjr]), List.getD_eq_getElem _ _ (by simpa using hjr),
        List.getElem_map]
      have hv : row[j] ∈ row := row.getElem_mem hjr
      rw [odsCell_roundtrip _ (htrimv row hrow _ hv)]
  rw [hkey, hdata, hhdec, hname]
  refine ⟨rfl, rfl, by simp, rfl⟩

/-- Concrete sheet whose single cell carries a leading space. -/
def cexOdsDs : Dataset :=
  { newDataset [str "H"] with
    data := [[.vStr (str " x")]],
    tags := [[]],
    title := str "T" }

/-- C5 counterexample: the importer trims paragraph text, so a string cell
" x" decodes as "x", not as its text rendering " x"; cell text renderings are
not preserved in general. -/
theorem ods_roundtrip_cex :
    (importODSModel ((exportODSTables [cexOdsDs]).map xmlTable) (str "T")).map Dataset.data =
      some [[Value.vStr (str "x")]] ∧
    cexOdsDs.data.map (fun r => r.map (fun v => Value.vStr (render v))) =
      [[Value.vStr (str " x")]] ∧
    str "x" ≠ str " x" := by
  refine ⟨by decide, by decide, by decide⟩

/-- Concrete one-sheet collection for the C5 witness. -/
def odsWitnessDs : Dataset :=
  { newDataset [str "H"] with
    data := [[.vInt 5]],
    tags := [[]],
    title := str "T1" }

/-- Witness for C5 at a one-sheet collection with an integer cell. -/
theorem ods_roundtrip_witness :
    odsWitnessDs ∈ [odsWitnessDs] ∧
    (∃ out, importODSModel ((exportODSTables [odsWitnessDs]).map xmlTable)
        odsWitnessDs.title = some out ∧
      out.headers = odsWitnessDs.headers ∧
      out.data = odsWitnessDs.data.map (fun r => r.map (fun v => Value.vStr (render v))) ∧
      out.data.length = odsWitnessDs.data.length ∧
      out.title = odsWitnessDs.title) ∧
    odsWitnessDs.data.map (fun r => r.map (fun v => Value.vStr (render v))) =
      [[Value.vStr (str "5")]] := by
  refine ⟨by simp,
    ods_roundtrip [odsWitnessDs] odsWitnessDs (by simp) (by decide) (by decide) (by decide)
      (by decide) (by decide) (by decide),
    by decide⟩

end Tablib
